import Mathlib

/-!
# SimpleFS: a shallow embedding of `fs.c` and `disk.c`

The block device and the filesystem core are embedded as pure functions on an
explicit state: the contents of the device (`Disk`) and the in-memory
filesystem record (`FileSystem`).

Conventions of the embedding.

* A block is a byte buffer; the `union Block` views (`super`, `inodes`,
  `pointers`, `data`) are decoded from the bytes with `get32`/`set32`
  (little-endian 32-bit words, the host order the image format assumes).
* `size_t` is 64 bits wide, `uint32_t` fields are 32 bits wide; arithmetic
  that can wrap carries an explicit `%`.
* A `Disk *` is an `Option Nat` (`none` is `NULL`); the pointee is passed next
  to it.  The operating system calls behind `disk_read`/`disk_write`
  (`lseek`, `read`, `write`) and `malloc` are taken to succeed, and the
  read/write counters of the device, which no filesystem function reads, are
  left out.
* An access outside a C array (the `free_blocks` vector, the five-entry
  `direct` array) is undefined behaviour; the embedding stops there with a
  distinguished result (`none`, `Outcome.undef`) instead of guessing a value.
* `for` loops run over the list of their indices (`forLoop`); `while` loops
  take fuel.
-/

namespace SimpleFS

/-! ## Constants (`disk.h`, `fs.h`) -/

def BLOCK_SIZE : Nat := 4096
def DISK_FAILURE : Int := -1
def MAGIC_NUMBER : Nat := 0xf0f03410
def INODES_PER_BLOCK : Nat := 128
def POINTERS_PER_INODE : Nat := 5
def POINTERS_PER_BLOCK : Nat := 1024

/-- Number of values of a `size_t`. -/
def SIZE_MOD : Nat := 2 ^ 64

/-- Number of values of a `uint32_t`. -/
def U32_MOD : Nat := 2 ^ 32

/-! ## Bytes, buffers and the views of a block -/

abbrev Byte := Fin 256

/-- A `char` buffer, indexed from 0. -/
abbrev Buffer := Nat → Byte

/-- A `union Block`: only the indices below `BLOCK_SIZE` are meaningful. -/
abbrev Block := Buffer

def toByte (v : Nat) : Byte := ⟨v % 256, Nat.mod_lt v (by decide)⟩

/-- The block `memset` to zero. -/
def zeroBlock : Block := fun _ => 0

/-- The `uint32_t` stored at word index `w` of a buffer (little-endian). -/
def get32 (b : Buffer) (w : Nat) : Nat :=
  (b (4 * w)).val + 256 * (b (4 * w + 1)).val + 65536 * (b (4 * w + 2)).val
    + 16777216 * (b (4 * w + 3)).val

/-- Store `v`, truncated to 32 bits, at word index `w` of a buffer. -/
def set32 (b : Buffer) (w v : Nat) : Buffer := fun i =>
  if i = 4 * w then toByte v
  else if i = 4 * w + 1 then toByte (v / 256)
  else if i = 4 * w + 2 then toByte (v / 65536)
  else if i = 4 * w + 3 then toByte (v / 16777216)
  else b i

/-- What `memcpy(dst + at, src + from, n)` leaves in `dst`. -/
def memcpy (dst : Buffer) (dstOff : Nat) (src : Buffer) (srcOff n : Nat) : Buffer := fun i =>
  if dstOff ≤ i ∧ i < dstOff + n then src (srcOff + (i - dstOff)) else dst i

structure SuperBlock where
  magic_number : Nat
  blocks : Nat
  inode_blocks : Nat
  inodes : Nat
deriving DecidableEq

/-- The `super` view: the first four words of the block. -/
def Block_super (b : Block) : SuperBlock :=
  { magic_number := get32 b 0, blocks := get32 b 1, inode_blocks := get32 b 2,
    inodes := get32 b 3 }

/-- Word index of `inodes[i].valid`: an `Inode` is eight words. -/
def validAt (i : Nat) : Nat := 8 * i
/-- Word index of `inodes[i].size`. -/
def sizeAt (i : Nat) : Nat := 8 * i + 1
/-- Word index of `inodes[i].direct[j]`, for `j < POINTERS_PER_INODE`. -/
def directAt (i j : Nat) : Nat := 8 * i + 2 + j
/-- Word index of `inodes[i].indirect`. -/
def indirectAt (i : Nat) : Nat := 8 * i + 7

def inode_valid (b : Block) (i : Nat) : Nat := get32 b (validAt i)
def inode_size (b : Block) (i : Nat) : Nat := get32 b (sizeAt i)
def inode_direct (b : Block) (i j : Nat) : Nat := get32 b (directAt i j)
def inode_indirect (b : Block) (i : Nat) : Nat := get32 b (indirectAt i)

/-! ## The block device (`disk.c`) -/

structure Disk where
  /-- Field `blocks` of `struct Disk`. -/
  blocks : Nat
  /-- Contents of the backing file, block by block. -/
  data : Nat → Block

/-- `disk_sanity_check`: the handle is not `NULL` and the block is in range
(the data buffers of this program are never `NULL`). -/
def disk_sanity_check (disk : Option Nat) (d : Disk) (block : Nat) : Bool :=
  disk.isSome && decide (block < d.blocks)

/-- `disk_read`: `some` block (return value `BLOCK_SIZE`) or `none`
(`DISK_FAILURE`, the buffer is left alone). -/
def disk_read (disk : Option Nat) (d : Disk) (block : Nat) : Option Block :=
  if disk_sanity_check disk d block then some (d.data block) else none

/-- `disk_write`: `some` new device (return value `BLOCK_SIZE`) or `none`
(`DISK_FAILURE`, the device is left alone). -/
def disk_write (disk : Option Nat) (d : Disk) (block : Nat) (data : Block) : Option Disk :=
  if disk_sanity_check disk d block then
    some { d with data := fun b => if b = block then data else d.data b }
  else none

/-! ## Control flow -/

/-- Result of one loop iteration: go on with a new state, or leave the
function through a `return` (or the loop through a `break`, where the loop is
a search). -/
inductive Step (σ ρ : Type) where
  | next (s : σ)
  | ret (r : ρ)

/-- A `for` loop over the indices `l`, in order. -/
def forLoop {σ ρ : Type} (body : Nat → σ → Step σ ρ) : List Nat → σ → Step σ ρ
  | [], s => Step.next s
  | i :: l, s =>
    match body i s with
    | Step.next s' => forLoop body l s'
    | Step.ret r => Step.ret r

/-- Result of a function with a `while` loop. -/
inductive Outcome (α : Type) where
  | ret (a : α)
  | undef
  | nofuel

/-! ## The filesystem record (`fs.h`) -/

structure FileSystem where
  /-- The mounted device, `none` when unattached. -/
  disk : Option Nat
  /-- The free-block bitmap, `none` when not allocated. -/
  free_blocks : Option (List Bool)
  meta_data : SuperBlock
deriving DecidableEq

/-- The assignment `free_blocks[i] = v`; `none` when `i` is outside the vector. -/
def setFree (bm : List Bool) (i : Nat) (v : Bool) : Option (List Bool) :=
  if i < bm.length then some (bm.set i v) else none

/-! ## `fs_format` -/

/-- The superblock `fs_format` builds for a device of `blocks` blocks. -/
def format_super (blocks : Nat) : Block :=
  let super_block := zeroBlock
  let super_block := set32 super_block 0 MAGIC_NUMBER
  let super_block := set32 super_block 1 blocks
  let super_block :=
    set32 super_block 2 ((blocks + INODES_PER_BLOCK - 1) % SIZE_MOD / INODES_PER_BLOCK)
  set32 super_block 3 (get32 super_block 2 * INODES_PER_BLOCK)

def fs_format (fs : FileSystem) (disk : Option Nat) (d : Disk) : Bool × Disk :=
  if disk = none then (false, d)
  else if fs.disk = disk then (false, d)
  else
    match disk_write disk d 0 (format_super d.blocks) with
    | none => (false, d)
    | some d1 =>
      let r := forLoop
        (fun block_number (d : Disk) =>
          match disk_write disk d block_number zeroBlock with
          | none => Step.ret (false, d)
          | some d' => Step.next d')
        (List.range' 1 (d.blocks - 1)) d1
      match r with
      | Step.next d2 => (true, d2)
      | Step.ret r => r

/-! ## `fs_mount`, `fs_unmount` -/

/-- The statement `if (p != 0) free_blocks[p] = v;`, which `fs_mount` runs with
`false` and `fs_remove` with `true` on each pointer; leaving with `none` is an
access outside the vector. -/
def mark_pointer (v : Bool) (p : Nat) (bm : List Bool) :
    Step (List Bool) (Option (List Bool)) :=
  if p ≠ 0 then
    match setFree bm p v with
    | none => Step.ret none
    | some bm' => Step.next bm'
  else Step.next bm

/-- Body of the loop of `fs_mount` over the inodes of one inode block.  A
`return false` carries the bitmap as it stands (`some`), undefined behaviour is
`none`. -/
def mount_inode (disk : Option Nat) (d : Disk) (inodes : Block) (i : Nat) (bm : List Bool) :
    Step (List Bool) (Option (List Bool)) :=
  if inode_valid inodes i = 1 then
    match forLoop (fun j bm => mark_pointer false (inode_direct inodes i j) bm)
        (List.range POINTERS_PER_INODE) bm with
    | Step.ret r => Step.ret r
    | Step.next bm =>
      if inode_indirect inodes i ≠ 0 then
        match setFree bm (inode_indirect inodes i) false with
        | none => Step.ret none
        | some bm =>
          match disk_read disk d (inode_indirect inodes i) with
          | none => Step.ret (some bm)
          | some indirect_block =>
            forLoop (fun j bm => mark_pointer false (get32 indirect_block j) bm)
              (List.range POINTERS_PER_BLOCK) bm
      else Step.next bm
  else Step.next bm

/-- Body of the loop of `fs_mount` over the inode blocks. -/
def mount_block (disk : Option Nat) (d : Disk) (block_number : Nat) (bm : List Bool) :
    Step (List Bool) (Option (List Bool)) :=
  match disk_read disk d block_number with
  | none => Step.ret (some bm)
  | some inode_block => forLoop (mount_inode disk d inode_block) (List.range INODES_PER_BLOCK) bm

/-- Body of the loop `for (i = 0; i <= inode_blocks; i++) free_blocks[i] = false`. -/
def mount_reserve (i : Nat) (bm : List Bool) : Step (List Bool) (Option (List Bool)) :=
  match setFree bm i false with
  | none => Step.ret none
  | some bm' => Step.next bm'

/-- The function `fs_mount`: `none` is undefined behaviour, otherwise the
returned flag and the filesystem record as the call leaves it. -/
def fs_mount (fs : FileSystem) (disk : Option Nat) (d : Disk) : Option (Bool × FileSystem) :=
  if disk = none then some (false, fs)
  else if fs.disk = disk then some (false, fs)
  else
    let fs := { fs with disk := disk }
    match disk_read disk d 0 with
    | none => some (false, fs)
    | some super_block =>
      let fs := { fs with meta_data := Block_super super_block }
      let bm := List.replicate fs.meta_data.blocks true
      match forLoop mount_reserve (List.range (fs.meta_data.inode_blocks + 1)) bm with
      | Step.ret none => none
      | Step.ret (some bm) => some (false, { fs with free_blocks := some bm })
      | Step.next bm =>
        match forLoop (mount_block fs.disk d) (List.range' 1 fs.meta_data.inode_blocks) bm with
        | Step.ret none => none
        | Step.ret (some bm) => some (false, { fs with free_blocks := some bm })
        | Step.next bm => some (true, { fs with free_blocks := some bm })

def fs_unmount (fs : FileSystem) : FileSystem :=
  { fs with free_blocks := none, disk := none }

/-! ## `fs_create`, `fs_stat`, `fs_remove` -/

/-- Body of the scan of `fs_create`; `next` is the `continue`. -/
def create_step (fs : FileSystem) (d : Disk) (inode_number : Nat) (_ : Unit) :
    Step Unit (Int × Disk) :=
  let block_number := 1 + inode_number / INODES_PER_BLOCK
  match disk_read fs.disk d block_number with
  | none => Step.ret (-1, d)
  | some inode_block =>
    let index_within_block := inode_number % INODES_PER_BLOCK
    if inode_valid inode_block index_within_block = 1 then Step.next ()
    else
      let inode_block := set32 inode_block (validAt index_within_block) 1
      match disk_write fs.disk d block_number inode_block with
      | none => Step.ret (-1, d)
      | some d' =>
        -- `inode_block.inodes[index_within_block].size = 0` comes here, on the
        -- local copy of the block, which is dropped by the `return`
        Step.ret (Int.ofNat inode_number, d')

/-- The function `fs_create`: the returned inode number (or -1) and the device. -/
def fs_create (fs : FileSystem) (d : Disk) : Int × Disk :=
  match forLoop (create_step fs d) (List.range fs.meta_data.inodes) () with
  | Step.next _ => (-1, d)
  | Step.ret r => r

def fs_stat (fs : FileSystem) (d : Disk) (inode_number : Nat) : Int :=
  if fs.disk = none ∨ fs.free_blocks = none then -1
  else if inode_number ≥ fs.meta_data.inodes then -1
  else
    let block_number := 1 + inode_number / INODES_PER_BLOCK
    match disk_read fs.disk d block_number with
    | none => -1
    | some inode_block =>
      let index_within_block := inode_number % INODES_PER_BLOCK
      if inode_valid inode_block index_within_block = 1 then
        Int.ofNat (inode_size inode_block index_within_block)
      else -1

/-- Body of the loop of `fs_remove` over the direct pointers: the state is the
bitmap and the local copy of the inode block. -/
def remove_direct (index_within_block : Nat) (i : Nat) (s : List Bool × Block) :
    Step (List Bool × Block) (Option (List Bool)) :=
  if inode_direct s.2 index_within_block i ≠ 0 then
    match setFree s.1 (inode_direct s.2 index_within_block i) true with
    | none => Step.ret none
    | some bm' => Step.next (bm', set32 s.2 (directAt index_within_block i) 0)
  else Step.next s

/-- The function `fs_remove`: `none` is undefined behaviour, otherwise the
returned flag, the filesystem record and the device. -/
def fs_remove (fs : FileSystem) (d : Disk) (inode_number : Nat) :
    Option (Bool × FileSystem × Disk) :=
  match fs.free_blocks with
  | none => some (false, fs, d)
  | some bm =>
    if fs.disk = none then some (false, fs, d)
    else if inode_number ≥ fs.meta_data.inodes then some (false, fs, d)
    else
      let block_number := 1 + inode_number / INODES_PER_BLOCK
      match disk_read fs.disk d block_number with
      | none => some (false, fs, d)
      | some inode_block =>
        let index_within_block := inode_number % INODES_PER_BLOCK
        let indirect := inode_indirect inode_block index_within_block
        if inode_valid inode_block index_within_block = 0 then some (false, fs, d)
        else
          let inode_block := set32 inode_block (validAt index_within_block) 0
          match forLoop (remove_direct index_within_block) (List.range POINTERS_PER_INODE)
              (bm, inode_block) with
          | Step.ret _ => none
          | Step.next (bm, inode_block) =>
            let finish := fun (bm : List Bool) =>
              let inode_block := set32 inode_block (sizeAt index_within_block) 0
              match disk_write fs.disk d block_number inode_block with
              | none => some (false, { fs with free_blocks := some bm }, d)
              | some d' => some (true, { fs with free_blocks := some bm }, d')
            if indirect ≠ 0 then
              match setFree bm indirect true with
              | none => none
              | some bm =>
                match disk_read fs.disk d indirect with
                | none => some (false, { fs with free_blocks := some bm }, d)
                | some indirect_block =>
                  match forLoop (fun i bm => mark_pointer true (get32 indirect_block i) bm)
                      (List.range POINTERS_PER_BLOCK) bm with
                  | Step.ret _ => none
                  | Step.next bm => finish bm
            else finish bm

/-! ## `fs_read` -/

/-- The variables `fs_read` updates: the byte count, the file offset and the
caller's buffer. -/
structure ReadState where
  bytes_read : Nat
  current_offset : Nat
  data : Buffer

/-- Where a `while` loop of `fs_read` stops with fuel left: its exit (by its
condition or a `break`), a `return`, or undefined behaviour. -/
inductive LoopEnd (σ ρ : Type) where
  | exit (s : σ)
  | ret (r : ρ)
  | undef

/-- The first `while` loop of `fs_read`, over the direct pointers.  The guard
`block_index > POINTERS_PER_INODE` lets the index 5 through, which is outside
`direct[5]`. -/
def read_direct_loop (fs : FileSystem) (d : Disk) (inode_block : Block)
    (index_within_block length : Nat) : Nat → ReadState → Option (LoopEnd ReadState (Int × Buffer))
  | 0, _ => none
  | fuel + 1, s =>
    if s.current_offset < inode_size inode_block index_within_block ∧ s.bytes_read < length then
      let block_offset := s.current_offset % BLOCK_SIZE
      let block_index := s.current_offset / BLOCK_SIZE
      let bytes_to_read := BLOCK_SIZE - block_offset
      if block_index > POINTERS_PER_INODE then some (LoopEnd.exit s)
      else
        let bytes_to_read :=
          if bytes_to_read > length - s.bytes_read then length - s.bytes_read else bytes_to_read
        if block_index < POINTERS_PER_INODE then
          match disk_read fs.disk d (inode_direct inode_block index_within_block block_index) with
          | none => some (LoopEnd.ret (-1, s.data))
          | some buf =>
            read_direct_loop fs d inode_block index_within_block length fuel
              { bytes_read := s.bytes_read + bytes_to_read
                current_offset := s.current_offset + bytes_to_read
                data := memcpy s.data s.bytes_read buf block_offset bytes_to_read }
        else some LoopEnd.undef
    else some (LoopEnd.exit s)

/-- The second `while` loop of `fs_read`, over the entries of the indirect
block.  Nothing advances when the entry is 0. -/
def read_indirect_loop (fs : FileSystem) (d : Disk) (inode_block indirect_block : Block)
    (index_within_block length : Nat) : Nat → ReadState → Option (LoopEnd ReadState (Int × Buffer))
  | 0, _ => none
  | fuel + 1, s =>
    if s.current_offset < inode_size inode_block index_within_block ∧ s.bytes_read < length then
      let block_offset := s.current_offset % BLOCK_SIZE
      let block_index := (s.current_offset / BLOCK_SIZE + SIZE_MOD - POINTERS_PER_INODE) % SIZE_MOD
      let bytes_to_read := BLOCK_SIZE - block_offset
      if block_index ≥ POINTERS_PER_BLOCK then some (LoopEnd.exit s)
      else
        let pointer := get32 indirect_block block_index
        if pointer ≠ 0 then
          let bytes_to_read :=
            if bytes_to_read > length - s.bytes_read then length - s.bytes_read else bytes_to_read
          match disk_read fs.disk d pointer with
          | none => some (LoopEnd.ret (-1, s.data))
          | some buf =>
            read_indirect_loop fs d inode_block indirect_block index_within_block length fuel
              { bytes_read := s.bytes_read + bytes_to_read
                current_offset := s.current_offset + bytes_to_read
                data := memcpy s.data s.bytes_read buf block_offset bytes_to_read }
        else read_indirect_loop fs d inode_block indirect_block index_within_block length fuel s
    else some (LoopEnd.exit s)

/-- The function `fs_read`, each `while` loop running at most `fuel`
iterations: the returned count (or -1) and the caller's buffer. -/
def fs_read (fuel : Nat) (fs : FileSystem) (d : Disk) (inode_number : Nat) (data : Buffer)
    (length offset : Nat) : Outcome (Int × Buffer) :=
  if fs.disk = none ∨ fs.free_blocks = none then Outcome.ret (-1, data)
  else if inode_number ≥ fs.meta_data.inodes then Outcome.ret (-1, data)
  else
    let block_number := 1 + inode_number / INODES_PER_BLOCK
    match disk_read fs.disk d block_number with
    | none => Outcome.ret (-1, data)
    | some inode_block =>
      let index_within_block := inode_number % INODES_PER_BLOCK
      if inode_valid inode_block index_within_block = 0 then Outcome.ret (-1, data)
      else
        match read_direct_loop fs d inode_block index_within_block length fuel
            { bytes_read := 0, current_offset := offset, data := data } with
        | none => Outcome.nofuel
        | some LoopEnd.undef => Outcome.undef
        | some (LoopEnd.ret r) => Outcome.ret r
        | some (LoopEnd.exit s) =>
          if inode_indirect inode_block index_within_block ≠ 0 then
            match disk_read fs.disk d (inode_indirect inode_block index_within_block) with
            | none => Outcome.ret (0, s.data)
            | some indirect_block =>
              match read_indirect_loop fs d inode_block indirect_block index_within_block
                  length fuel s with
              | none => Outcome.nofuel
              | some LoopEnd.undef => Outcome.undef
              | some (LoopEnd.ret r) => Outcome.ret r
              | some (LoopEnd.exit s) => Outcome.ret (Int.ofNat s.bytes_read, s.data)
          else Outcome.ret (Int.ofNat s.bytes_read, s.data)

/-! ## `fs_write` -/

/-- What `fs_write` updates: the bitmap, its local copy of the inode block (a
stack variable), the device, and the loop variables. -/
structure WriteState where
  free_blocks : List Bool
  inode_block : Block
  d : Disk
  current_offset : Nat
  current_block : Nat
  bytes_written : Nat

/-- The scan `for (i = inode_blocks + 1; i < blocks; i++) if (free_blocks[i] == true)`
that `fs_write` repeats inline: `some (some i)` is the index at the `break`,
`some none` a scan that ends without one, `none` a read outside the vector. -/
def alloc_scan (fs : FileSystem) (bm : List Bool) : Option (Option Nat) :=
  let start := (fs.meta_data.inode_blocks + 1) % U32_MOD
  match forLoop
      (fun i (_ : Unit) => match bm[i]? with
        | none => Step.ret (none : Option Nat)
        | some true => Step.ret (some i)
        | some false => Step.next ())
      (List.range' start (fs.meta_data.blocks - start)) () with
  | Step.next _ => some none
  | Step.ret none => none
  | Step.ret (some i) => some (some i)

/-- The block `if (inode->direct[block_index] == 0) { ... }` of `fs_write`.
A `return` carries the value and the state; `none` is undefined behaviour. -/
def write_direct_alloc (fs : FileSystem) (index_within_block block_index : Nat)
    (s : WriteState) : Step WriteState (Option (Int × WriteState)) :=
  if inode_direct s.inode_block index_within_block block_index = 0 then
    match alloc_scan fs s.free_blocks with
    | none => Step.ret none
    | some none => Step.ret (some (-1, s))
    | some (some i) =>
      match setFree s.free_blocks i false with
      | none => Step.ret none
      | some bm =>
        let s := { s with
          inode_block := set32 s.inode_block (directAt index_within_block block_index) i
          free_blocks := bm }
        if i = 0 then Step.ret (some (-1, s)) else Step.next s
  else Step.next s

/-- The block `if (inode->indirect == 0) { ... }` of `fs_write`. -/
def write_indirect_alloc (fs : FileSystem) (index_within_block : Nat)
    (s : WriteState) : Step WriteState (Option (Int × WriteState)) :=
  if inode_indirect s.inode_block index_within_block = 0 then
    match alloc_scan fs s.free_blocks with
    | none => Step.ret none
    | some none => Step.ret (some (-1, s))
    | some (some i) =>
      match setFree s.free_blocks i false with
      | none => Step.ret none
      | some bm =>
        let s := { s with
          inode_block := set32 s.inode_block (indirectAt index_within_block) i
          free_blocks := bm }
        if i = 0 then Step.ret (some (-1, s)) else Step.next s
  else Step.next s

/-- The read-modify-write of the data block `pointer` and the advance of the
loop variables; the result of `disk_write` is not looked at. -/
def write_data (fs : FileSystem) (data : Buffer) (length pointer : Nat) (s : WriteState) :
    Step WriteState (Option (Int × WriteState)) :=
  let block_offset := s.current_offset % BLOCK_SIZE
  let bytes_to_write := BLOCK_SIZE - block_offset
  let bytes_to_write :=
    if bytes_to_write > length - s.bytes_written then length - s.bytes_written
    else bytes_to_write
  match disk_read fs.disk s.d pointer with
  | none => Step.ret (some (-1, s))
  | some buf =>
    let buf := memcpy buf block_offset data s.bytes_written bytes_to_write
    let d' := match disk_write fs.disk s.d pointer buf with
      | some d' => d'
      | none => s.d
    let current_offset := s.current_offset + bytes_to_write
    Step.next { s with
      d := d'
      current_offset := current_offset
      current_block := current_offset / BLOCK_SIZE
      bytes_written := s.bytes_written + bytes_to_write }

/-- The `else` branch of the loop of `fs_write`.  The test
`if (disk_read(...))` is on the returned byte count, `BLOCK_SIZE` on success
and `DISK_FAILURE` otherwise, so both leave with -1. -/
def write_indirect (fs : FileSystem) (index_within_block : Nat) (data : Buffer) (length : Nat)
    (s : WriteState) : Step WriteState (Option (Int × WriteState)) :=
  let block_index := s.current_block
  match write_indirect_alloc fs index_within_block s with
  | Step.ret r => Step.ret r
  | Step.next s =>
    let indirect_index := (block_index - POINTERS_PER_INODE) % U32_MOD
    if indirect_index ≥ POINTERS_PER_BLOCK then Step.ret (some (-1, s))
    else
      match disk_read fs.disk s.d (inode_indirect s.inode_block index_within_block) with
      | none => Step.ret (some (-1, s))
      | some indirect_block =>
        if (BLOCK_SIZE : Int) ≠ 0 then Step.ret (some (-1, s))
        else if get32 indirect_block indirect_index = 0 then
          match alloc_scan fs s.free_blocks with
          | none => Step.ret none
          | some none => Step.ret (some (-1, s))
          | some (some i) =>
            match setFree s.free_blocks i false with
            | none => Step.ret none
            | some bm =>
              let indirect_block := set32 indirect_block indirect_index i
              let s := { s with free_blocks := bm }
              if get32 indirect_block indirect_index = 0 then Step.ret (some (-1, s))
              else write_data fs data length (get32 indirect_block indirect_index) s
        else write_data fs data length (get32 indirect_block indirect_index) s

/-- One iteration of the loop of `fs_write`.  The discriminator is
`block_index < POINTERS_PER_BLOCK`, so `direct[block_index]` is indexed with
every `block_index < 1024`; an index outside the five-entry array is
undefined behaviour. -/
def write_step (fs : FileSystem) (index_within_block : Nat) (data : Buffer) (length : Nat)
    (s : WriteState) : Step WriteState (Option (Int × WriteState)) :=
  let block_index := s.current_block
  if block_index < POINTERS_PER_BLOCK then
    if block_index < POINTERS_PER_INODE then
      match write_direct_alloc fs index_within_block block_index s with
      | Step.ret r => Step.ret r
      | Step.next s =>
        write_data fs data length (inode_direct s.inode_block index_within_block block_index) s
    else Step.ret none
  else write_indirect fs index_within_block data length s

/-- The `while` loop of `fs_write` and the statements after it: the returned
count and the final state, the local inode block included. -/
def write_loop (fs : FileSystem) (index_within_block : Nat) (data : Buffer)
    (length end_offset end_block : Nat) : Nat → WriteState → Outcome (Int × WriteState)
  | 0, _ => Outcome.nofuel
  | fuel + 1, s =>
    if s.current_block < end_block ∧ s.bytes_written < length then
      match write_step fs index_within_block data length s with
      | Step.next s' => write_loop fs index_within_block data length end_offset end_block fuel s'
      | Step.ret none => Outcome.undef
      | Step.ret (some r) => Outcome.ret r
    else
      let inode_block :=
        if end_offset > inode_size s.inode_block index_within_block then
          set32 s.inode_block (sizeAt index_within_block) end_offset
        else s.inode_block
      Outcome.ret (Int.ofNat s.bytes_written, { s with inode_block := inode_block })

/-- The function `fs_write` up to its `return`, with the final values of its
local variables.  Every iteration writes at least one byte, so `length + 1`
rounds of fuel are never used up. -/
def fs_write_run (fs : FileSystem) (bm : List Bool) (d : Disk) (inode_block : Block)
    (index_within_block : Nat) (data : Buffer) (length offset : Nat) :
    Outcome (Int × WriteState) :=
  let end_offset := (offset + length) % SIZE_MOD
  let end_block := (end_offset + BLOCK_SIZE - 1) % SIZE_MOD / BLOCK_SIZE
  write_loop fs index_within_block data length end_offset end_block (length + 1)
    { free_blocks := bm, inode_block := inode_block, d := d, current_offset := offset
      current_block := offset / BLOCK_SIZE, bytes_written := 0 }

/-- The function `fs_write`: the returned count (or -1), the filesystem record
and the device.  The local inode block is dropped: no statement writes it to
the device. -/
def fs_write (fs : FileSystem) (d : Disk) (inode_number : Nat) (data : Buffer)
    (length offset : Nat) : Outcome (Int × FileSystem × Disk) :=
  match fs.free_blocks with
  | none => Outcome.ret (-1, fs, d)
  | some bm =>
    if fs.disk = none then Outcome.ret (-1, fs, d)
    else if inode_number ≥ fs.meta_data.inodes then Outcome.ret (-1, fs, d)
    else
      let block_number := 1 + inode_number / INODES_PER_BLOCK
      match disk_read fs.disk d block_number with
      | none => Outcome.ret (-1, fs, d)
      | some inode_block =>
        let index_within_block := inode_number % INODES_PER_BLOCK
        if inode_valid inode_block index_within_block = 0 then Outcome.ret (-1, fs, d)
        else
          match fs_write_run fs bm d inode_block index_within_block data length offset with
          | Outcome.ret (r, s) => Outcome.ret (r, { fs with free_blocks := some s.free_blocks }, s.d)
          | Outcome.undef => Outcome.undef
          | Outcome.nofuel => Outcome.nofuel

/-! ## Vocabulary of the specification

The predicates below restate notions of the specification (which inodes are
valid, which blocks an inode references, where its pointers lie) on the
embedded data; they are not part of the program. -/

/-- Inode number `n` is valid on the device: its slot `n % 128` of block
`1 + n / 128` has `valid = 1`. -/
def slotValid (d : Disk) (n : Nat) : Prop :=
  inode_valid (d.data (1 + n / INODES_PER_BLOCK)) (n % INODES_PER_BLOCK) = 1

instance (d : Disk) (n : Nat) : Decidable (slotValid d n) := by
  unfold slotValid; infer_instance

/-- Block `k` is referenced by slot `i` of the inode block `blk`: the slot is
valid and `k` is one of its non-zero direct pointers, its non-zero indirect
pointer, or a non-zero entry of its indirect block (when the device has that
block). -/
def slotRefs (d : Disk) (blk : Block) (i k : Nat) : Prop :=
  inode_valid blk i = 1 ∧ k ≠ 0 ∧
    ((∃ j, j < POINTERS_PER_INODE ∧ inode_direct blk i j = k) ∨
      inode_indirect blk i = k ∨
      (inode_indirect blk i ≠ 0 ∧ inode_indirect blk i < d.blocks ∧
        ∃ j, j < POINTERS_PER_BLOCK ∧ get32 (d.data (inode_indirect blk i)) j = k))

/-- Block `k` is referenced by the valid inode number `n`. -/
def inodeRefs (d : Disk) (n k : Nat) : Prop :=
  slotRefs d (d.data (1 + n / INODES_PER_BLOCK)) (n % INODES_PER_BLOCK) k

/-- Block `k` is referenced by some valid inode of the inode table, which is
the blocks `1 .. inode_blocks` of 128 slots each. -/
def Referenced (sb : SuperBlock) (d : Disk) (k : Nat) : Prop :=
  ∃ n, n < sb.inode_blocks * INODES_PER_BLOCK ∧ inodeRefs d n k

/-- Every non-zero pointer of inode number `n` lies in `[lo, hi)`: its direct
pointers, its indirect pointer and, when the device has the indirect block,
the entries of that block. -/
def inodePointersIn (d : Disk) (n lo hi : Nat) : Prop :=
  (∀ j, j < POINTERS_PER_INODE →
    inode_direct (d.data (1 + n / INODES_PER_BLOCK)) (n % INODES_PER_BLOCK) j ≠ 0 →
      lo ≤ inode_direct (d.data (1 + n / INODES_PER_BLOCK)) (n % INODES_PER_BLOCK) j ∧
      inode_direct (d.data (1 + n / INODES_PER_BLOCK)) (n % INODES_PER_BLOCK) j < hi) ∧
  (inode_indirect (d.data (1 + n / INODES_PER_BLOCK)) (n % INODES_PER_BLOCK) ≠ 0 →
    (lo ≤ inode_indirect (d.data (1 + n / INODES_PER_BLOCK)) (n % INODES_PER_BLOCK) ∧
      inode_indirect (d.data (1 + n / INODES_PER_BLOCK)) (n % INODES_PER_BLOCK) < hi) ∧
    (inode_indirect (d.data (1 + n / INODES_PER_BLOCK)) (n % INODES_PER_BLOCK) < d.blocks →
      ∀ j, j < POINTERS_PER_BLOCK →
        get32 (d.data (inode_indirect (d.data (1 + n / INODES_PER_BLOCK))
          (n % INODES_PER_BLOCK))) j ≠ 0 →
        lo ≤ get32 (d.data (inode_indirect (d.data (1 + n / INODES_PER_BLOCK))
          (n % INODES_PER_BLOCK))) j ∧
        get32 (d.data (inode_indirect (d.data (1 + n / INODES_PER_BLOCK))
          (n % INODES_PER_BLOCK))) j < hi))

instance (d : Disk) (n lo hi : Nat) : Decidable (inodePointersIn d n lo hi) := by
  unfold inodePointersIn; infer_instance

/-- Every pointer of every valid inode of the inode table is below `bound`:
the direct pointers, the indirect pointer and, when the device has the
indirect block, its entries. -/
def PointersBelow (sb : SuperBlock) (d : Disk) (bound : Nat) : Prop :=
  ∀ n, n < sb.inode_blocks * INODES_PER_BLOCK →
    inode_valid (d.data (1 + n / INODES_PER_BLOCK)) (n % INODES_PER_BLOCK) = 1 →
      (∀ j, j < POINTERS_PER_INODE →
        inode_direct (d.data (1 + n / INODES_PER_BLOCK)) (n % INODES_PER_BLOCK) j < bound) ∧
      inode_indirect (d.data (1 + n / INODES_PER_BLOCK)) (n % INODES_PER_BLOCK) < bound ∧
      (inode_indirect (d.data (1 + n / INODES_PER_BLOCK)) (n % INODES_PER_BLOCK) ≠ 0 →
        inode_indirect (d.data (1 + n / INODES_PER_BLOCK)) (n % INODES_PER_BLOCK) < d.blocks →
        ∀ j, j < POINTERS_PER_BLOCK →
          get32 (d.data (inode_indirect (d.data (1 + n / INODES_PER_BLOCK))
            (n % INODES_PER_BLOCK))) j < bound)

instance (sb : SuperBlock) (d : Disk) (bound : Nat) : Decidable (PointersBelow sb d bound) := by
  unfold PointersBelow; infer_instance

instance (d : Disk) (blk : Block) (i k : Nat) : Decidable (slotRefs d blk i k) := by
  unfold slotRefs; infer_instance

instance (d : Disk) (n k : Nat) : Decidable (inodeRefs d n k) := by
  unfold inodeRefs; infer_instance

instance (sb : SuperBlock) (d : Disk) (k : Nat) : Decidable (Referenced sb d k) := by
  unfold Referenced; infer_instance

/-- The device after `k` calls of `fs_create`. -/
def create_many (fs : FileSystem) : Nat → Disk → Disk
  | 0, d => d
  | k + 1, d => create_many fs k (fs_create fs d).2

/-- The bitmap `bm'` is `bm` with the value `v` stored at the in-range indices
that satisfy `S`, and no other entry changed to `v`. -/
def Marked (v : Bool) (bm bm' : List Bool) (S : Nat → Prop) : Prop :=
  bm'.length = bm.length ∧
    ∀ k, bm'[k]? = some v ↔ (bm[k]? = some v ∨ (k < bm.length ∧ S k))

/-- The value a call returned, when it returned. -/
def returned {α : Type} : Outcome (Int × α) → Option Int
  | Outcome.ret r => some r.1
  | _ => none

/-- The call stopped at an access outside an array. -/
def isUndef {α : Type} : Outcome α → Bool
  | Outcome.undef => true
  | _ => false

/-! ## Example inputs -/

/-- An unattached filesystem record. -/
def fs0 : FileSystem := { disk := none, free_blocks := none, meta_data := ⟨0, 0, 0, 0⟩ }

/-- A device of `n` blocks, all zero. -/
def blankDisk (n : Nat) : Disk := { blocks := n, data := fun _ => zeroBlock }

/-- The 10-block image after `fs_format`. -/
def freshDisk : Disk := (fs_format fs0 (some 0) (blankDisk 10)).2

/-- The filesystem record after `fs_mount` on the fresh 10-block image. -/
def freshFs : FileSystem := ((fs_mount fs0 (some 0) freshDisk).getD (false, fs0)).2

/-- The 10-block image after `fs_format`, `fs_mount` and one `fs_create`. -/
def createdDisk : Disk := (fs_create freshFs freshDisk).2

/-- The five bytes of `"hello"`. -/
def hello : Buffer := fun i => ([104, 101, 108, 108, 111] : List Byte).getD i 0

/-- The call `fs_write(fs, 0, "hello", 5, 0)` after the create. -/
def helloWrite : Outcome (Int × FileSystem × Disk) := fs_write freshFs createdDisk 0 hello 5 0

/-- The filesystem record after that write. -/
def writtenFs : FileSystem :=
  match helloWrite with
  | Outcome.ret r => r.2.1
  | _ => freshFs

/-- The 10-block image after that write. -/
def writtenDisk : Disk :=
  match helloWrite with
  | Outcome.ret r => r.2.2
  | _ => createdDisk

/-- A formatted 10-block image whose free slot 0 still holds a size of 7. -/
def staleDisk : Disk :=
  { blocks := 10
    data := fun b =>
      if b = 0 then format_super 10
      else if b = 1 then set32 zeroBlock (sizeAt 0) 7
      else zeroBlock }

/-- The filesystem record after `fs_mount` on `staleDisk`. -/
def staleFs : FileSystem := ((fs_mount fs0 (some 0) staleDisk).getD (false, fs0)).2

/-- A 10-block image with one file: inode 0 is valid, with `direct[0] = 2`,
`indirect = 3`, and block 3 holding the single entry 4. -/
def fileDisk : Disk :=
  { blocks := 10
    data := fun b =>
      if b = 0 then format_super 10
      else if b = 1 then
        set32 (set32 (set32 (set32 zeroBlock (validAt 0) 1) (sizeAt 0) 24576)
          (directAt 0 0) 2) (indirectAt 0) 3
      else if b = 3 then set32 zeroBlock 0 4
      else zeroBlock }

/-- The filesystem record after `fs_mount` on `fileDisk`. -/
def fileFs : FileSystem := ((fs_mount fs0 (some 0) fileDisk).getD (false, fs0)).2

/-- A 10-block image with one file of 5 bytes: inode 0 is valid, with
`size = 5` and `direct[0] = 2`. -/
def sizedDisk : Disk :=
  { blocks := 10
    data := fun b =>
      if b = 0 then format_super 10
      else if b = 1 then
        set32 (set32 (set32 zeroBlock (validAt 0) 1) (sizeAt 0) 5) (directAt 0 0) 2
      else zeroBlock }

/-- The filesystem record after `fs_mount` on `sizedDisk`. -/
def sizedFs : FileSystem := ((fs_mount fs0 (some 0) sizedDisk).getD (false, fs0)).2

/-- A 4-block image without a free block: inode 0 is valid, with
`direct[0] = 2` and `indirect = 3`, and the indirect block 3 has no entry. -/
def fullDisk : Disk :=
  { blocks := 4
    data := fun b =>
      if b = 0 then format_super 4
      else if b = 1 then
        set32 (set32 (set32 (set32 zeroBlock (validAt 0) 1) (sizeAt 0) 4096)
          (directAt 0 0) 2) (indirectAt 0) 3
      else zeroBlock }

/-- The filesystem record after `fs_mount` on `fullDisk`. -/
def fullFs : FileSystem := ((fs_mount fs0 (some 0) fullDisk).getD (false, fs0)).2

/-- A 10-block image with a hole in its file: inode 0 is valid with
`size = 32768` (eight blocks) and `indirect = 3`, and the indirect block 3 has
entry 0 equal to 4 and entry 1 (file block 6) equal to 0. -/
def sparseDisk : Disk :=
  { blocks := 10
    data := fun b =>
      if b = 0 then format_super 10
      else if b = 1 then
        set32 (set32 (set32 zeroBlock (validAt 0) 1) (sizeAt 0) 32768) (indirectAt 0) 3
      else if b = 3 then set32 zeroBlock 0 4
      else zeroBlock }

/-- The filesystem record after `fs_mount` on `sparseDisk`. -/
def sparseFs : FileSystem := ((fs_mount fs0 (some 0) sparseDisk).getD (false, fs0)).2

/-- The variables of `fs_write(fs, 0, ..., 0)` on entry to its loop, on the
fresh 10-block image after one create. -/
def freshWriteState : WriteState :=
  { free_blocks := [false, false, true, true, true, true, true, true, true, true]
    inode_block := createdDisk.data 1
    d := createdDisk
    current_offset := 0
    current_block := 0
    bytes_written := 0 }

/-- The same variables after the allocation for `direct[0]`. -/
def allocatedWriteState : WriteState :=
  match write_direct_alloc freshFs 0 0 freshWriteState with
  | Step.next s => s
  | Step.ret _ => freshWriteState

/-- A 2-block image that `fs_mount` accepts although its superblock counts 129
inodes: the 128 slots of block 1 are all valid (nothing else is set in them),
and the slot of inode 128 would lie in block 2, which the device does not
have. -/
def crampedDisk : Disk :=
  { blocks := 2
    data := fun b =>
      if b = 0 then set32 (set32 (set32 (set32 zeroBlock 0 MAGIC_NUMBER) 1 2) 2 1) 3 129
      else if b = 1 then fun i => if i % 32 = 0 then 1 else 0
      else zeroBlock }

/-- The filesystem record after `fs_mount` of `crampedDisk`. -/
def crampedFs : FileSystem := ((fs_mount fs0 (some 0) crampedDisk).getD (false, fs0)).2

/-- A buffer of `'A'` bytes. -/
def bufA : Buffer := fun _ => 65

/-! ## Words of a buffer -/

theorem get32_lt (b : Buffer) (w : Nat) : get32 b w < U32_MOD := by
  unfold get32 U32_MOD
  have h0 := (b (4 * w)).isLt
  have h1 := (b (4 * w + 1)).isLt
  have h2 := (b (4 * w + 2)).isLt
  have h3 := (b (4 * w + 3)).isLt
  omega

theorem get32_set32_same (b : Buffer) (w v : Nat) : get32 (set32 b w v) w = v % U32_MOD := by
  simp only [get32, set32, toByte, U32_MOD]
  simp
  omega

theorem set32_other (b : Buffer) (w v i : Nat) (h : i < 4 * w ∨ 4 * w + 4 ≤ i) :
    set32 b w v i = b i := by
  simp only [set32]
  rw [if_neg (by omega), if_neg (by omega), if_neg (by omega), if_neg (by omega)]

theorem get32_set32_ne (b : Buffer) (w w' v : Nat) (h : w' ≠ w) :
    get32 (set32 b w v) w' = get32 b w' := by
  have e : ∀ k, k < 4 → set32 b w v (4 * w' + k) = b (4 * w' + k) := fun k hk =>
    set32_other b w v _ (by omega)
  have e0 := e 0 (by omega)
  have e1 := e 1 (by omega)
  have e2 := e 2 (by omega)
  have e3 := e 3 (by omega)
  simp only [Nat.add_zero] at e0
  simp only [get32, e0, e1, e2, e3]

theorem get32_zeroBlock (w : Nat) : get32 zeroBlock w = 0 := by
  simp [get32, zeroBlock]

/-! ## The device -/

theorem disk_read_eq_some {disk : Option Nat} {d : Disk} {block : Nat} {b : Block}
    (h : disk_read disk d block = some b) : disk ≠ none ∧ block < d.blocks ∧ b = d.data block := by
  unfold disk_read disk_sanity_check at h
  cases disk with
  | none => simp at h
  | some p =>
    by_cases hb : block < d.blocks
    · simp [hb] at h
      exact ⟨by simp, hb, h.symm⟩
    · simp [hb] at h

theorem disk_read_of_lt {disk : Option Nat} {d : Disk} {block : Nat}
    (hd : disk ≠ none) (hb : block < d.blocks) : disk_read disk d block = some (d.data block) := by
  unfold disk_read disk_sanity_check
  cases disk with
  | none => exact absurd rfl hd
  | some p => simp [hb]

theorem disk_write_of_lt {disk : Option Nat} {d : Disk} {block : Nat} (data : Block)
    (hd : disk ≠ none) (hb : block < d.blocks) :
    disk_write disk d block data =
      some { d with data := fun b => if b = block then data else d.data b } := by
  unfold disk_write disk_sanity_check
  cases disk with
  | none => exact absurd rfl hd
  | some p => simp [hb]

theorem disk_write_eq_some {disk : Option Nat} {d d' : Disk} {block : Nat} {data : Block}
    (h : disk_write disk d block data = some d') :
    disk ≠ none ∧ block < d.blocks ∧ d'.blocks = d.blocks ∧
      ∀ b, d'.data b = if b = block then data else d.data b := by
  unfold disk_write disk_sanity_check at h
  cases disk with
  | none => simp at h
  | some p =>
    by_cases hb : block < d.blocks
    · simp [hb] at h
      subst h
      exact ⟨by simp, hb, rfl, fun _ => rfl⟩
    · simp [hb] at h

/-! ## `for` loops -/

theorem forLoop_nil {σ ρ : Type} (body : Nat → σ → Step σ ρ) (s : σ) :
    forLoop body [] s = Step.next s := rfl

theorem forLoop_cons_next {σ ρ : Type} {body : Nat → σ → Step σ ρ} {i : Nat} {s s' : σ}
    (l : List Nat) (h : body i s = Step.next s') :
    forLoop body (i :: l) s = forLoop body l s' := by
  simp [forLoop, h]

theorem forLoop_cons_ret {σ ρ : Type} {body : Nat → σ → Step σ ρ} {i : Nat} {s : σ} {r : ρ}
    (l : List Nat) (h : body i s = Step.ret r) :
    forLoop body (i :: l) s = Step.ret r := by
  simp [forLoop, h]

/-- A loop whose iterations all leave the state alone leaves it alone. -/
theorem forLoop_skip {σ ρ : Type} (body : Nat → σ → Step σ ρ) (l : List Nat) (s : σ)
    (h : ∀ i, i ∈ l → body i s = Step.next s) : forLoop body l s = Step.next s := by
  induction l with
  | nil => rfl
  | cons i l ih =>
    rw [forLoop_cons_next l (h i (List.mem_cons_self i l))]
    exact ih (fun j hj => h j (List.mem_cons_of_mem i hj))

/-- Invariant rule: a property kept by every iteration that goes on holds at
a normal end of the loop. -/
theorem forLoop_next_inv {σ ρ : Type} (body : Nat → σ → Step σ ρ) (I : σ → Prop)
    (l : List Nat) (hbody : ∀ i, i ∈ l → ∀ s s', I s → body i s = Step.next s' → I s') :
    ∀ s s', I s → forLoop body l s = Step.next s' → I s' := by
  induction l with
  | nil =>
    intro s s' hI h
    simp only [forLoop, Step.next.injEq] at h
    exact h ▸ hI
  | cons i l ih =>
    intro s s' hI h
    cases hb : body i s with
    | next s1 =>
      rw [forLoop_cons_next l hb] at h
      exact ih (fun j hj => hbody j (List.mem_cons_of_mem i hj)) s1 s'
        (hbody i (List.mem_cons_self i l) s s1 hI hb) h
    | ret r =>
      rw [forLoop_cons_ret l hb] at h
      exact absurd h (by simp)

/-- Where a loop leaves through a `return`, some iteration did, from a state
satisfying the invariant. -/
theorem forLoop_ret_inv {σ ρ : Type} (body : Nat → σ → Step σ ρ) (I : σ → Prop)
    (l : List Nat) (hbody : ∀ i, i ∈ l → ∀ s s', I s → body i s = Step.next s' → I s') :
    ∀ s r, I s → forLoop body l s = Step.ret r → ∃ i s1, i ∈ l ∧ I s1 ∧ body i s1 = Step.ret r := by
  induction l with
  | nil =>
    intro s r _ h
    simp [forLoop] at h
  | cons i l ih =>
    intro s r hI h
    cases hb : body i s with
    | next s1 =>
      rw [forLoop_cons_next l hb] at h
      obtain ⟨j, s2, hj, hI2, h2⟩ := ih (fun j hj => hbody j (List.mem_cons_of_mem i hj)) s1 r
        (hbody i (List.mem_cons_self i l) s s1 hI hb) h
      exact ⟨j, s2, List.mem_cons_of_mem i hj, hI2, h2⟩
    | ret r1 =>
      rw [forLoop_cons_ret l hb] at h
      cases h
      exact ⟨i, s, List.mem_cons_self i l, hI, hb⟩

/-! ## `fs_format` -/

/-- The zeroing loop of `fs_format` over in-range blocks ends normally, with
exactly these blocks zeroed. -/
theorem format_loop_spec (disk : Option Nat) (hd : disk ≠ none) (l : List Nat) :
    ∀ d1 : Disk, (∀ b, b ∈ l → b < d1.blocks) →
      ∃ d2 : Disk,
        forLoop (fun block_number (d : Disk) =>
            match disk_write disk d block_number zeroBlock with
            | none => (Step.ret (false, d) : Step Disk (Bool × Disk))
            | some d' => Step.next d') l d1 = Step.next d2 ∧
        d2.blocks = d1.blocks ∧
        ∀ b, d2.data b = if b ∈ l then zeroBlock else d1.data b := by
  induction l with
  | nil =>
    intro d1 _
    exact ⟨d1, rfl, rfl, fun b => by simp⟩
  | cons i l ih =>
    intro d1 hl
    have hi : i < d1.blocks := hl i (List.mem_cons_self i l)
    obtain ⟨d2, h2, hb2, hdata⟩ := ih
      { d1 with data := fun b => if b = i then zeroBlock else d1.data b }
      (fun b hb => hl b (List.mem_cons_of_mem i hb))
    refine ⟨d2, ?_, hb2, ?_⟩
    · rw [← h2]
      apply forLoop_cons_next
      simp only [disk_write_of_lt zeroBlock hd hi]
    · intro b
      rw [hdata b]
      by_cases hbi : b = i
      · simp [hbi]
      · by_cases hbl : b ∈ l <;> simp [hbi, hbl]

/-- On a device with at least one block, a format of a disk the filesystem is
not mounted on succeeds: block 0 is the superblock and every other block of
the device is zero. -/
theorem fs_format_spec (fs : FileSystem) (disk : Option Nat) (d : Disk)
    (hd : disk ≠ none) (hm : fs.disk ≠ disk) (hb : 0 < d.blocks) :
    ∃ d' : Disk, fs_format fs disk d = (true, d') ∧ d'.blocks = d.blocks ∧
      d'.data 0 = format_super d.blocks ∧
      ∀ b, 1 ≤ b → b < d.blocks → d'.data b = zeroBlock := by
  obtain ⟨d2, h2, hb2, hdata⟩ := format_loop_spec disk hd (List.range' 1 (d.blocks - 1))
    { d with data := fun b => if b = 0 then format_super d.blocks else d.data b }
    (fun b hb => by
      rw [List.mem_range'] at hb
      obtain ⟨i, hi, rfl⟩ := hb
      show 1 + 1 * i < d.blocks
      omega)
  refine ⟨d2, ?_, hb2, ?_, ?_⟩
  · unfold fs_format
    rw [if_neg hd, if_neg hm, disk_write_of_lt _ hd hb]
    simp only [h2]
  · rw [hdata 0]
    have : (0 : Nat) ∉ List.range' 1 (d.blocks - 1) := by
      rw [List.mem_range']
      rintro ⟨i, _, hi⟩
      omega
    simp [this]
  · intro b h1 hlt
    rw [hdata b]
    have : b ∈ List.range' 1 (d.blocks - 1) := by
      rw [List.mem_range']
      exact ⟨b - 1, by omega, by omega⟩
    simp [this]

/-- When `fs_format` returns true its preconditions held. -/
theorem fs_format_true_pre (fs : FileSystem) (disk : Option Nat) (d : Disk)
    (h : (fs_format fs disk d).1 = true) : disk ≠ none ∧ fs.disk ≠ disk ∧ 0 < d.blocks := by
  by_cases hd : disk = none
  · simp [fs_format, hd] at h
  by_cases hm : fs.disk = disk
  · simp [fs_format, hd, hm] at h
  refine ⟨hd, hm, ?_⟩
  by_contra hb
  have hw : disk_write disk d 0 (format_super d.blocks) = none := by
    unfold disk_write disk_sanity_check
    simp [show ¬ 0 < d.blocks from hb]
  simp [fs_format, hd, hm, hw] at h

/-- The four fields of the superblock `fs_format` builds, with the
truncations of the 32-bit fields. -/
theorem format_super_fields (n : Nat) :
    get32 (format_super n) 0 = MAGIC_NUMBER ∧
    get32 (format_super n) 1 = n % U32_MOD ∧
    get32 (format_super n) 2 = (n + 127) % SIZE_MOD / 128 % U32_MOD ∧
    get32 (format_super n) 3 = (n + 127) % SIZE_MOD / 128 % U32_MOD * 128 % U32_MOD := by
  have h2 : get32 (set32 (set32 (set32 zeroBlock 0 MAGIC_NUMBER) 1 n) 2
      ((n + INODES_PER_BLOCK - 1) % SIZE_MOD / INODES_PER_BLOCK)) 2
      = (n + 127) % SIZE_MOD / 128 % U32_MOD := by
    rw [get32_set32_same]
    rfl
  refine ⟨?_, ?_, ?_, ?_⟩
  · simp only [format_super]
    rw [get32_set32_ne _ _ _ _ (by decide), get32_set32_ne _ _ _ _ (by decide),
      get32_set32_ne _ _ _ _ (by decide), get32_set32_same]
    decide
  · simp only [format_super]
    rw [get32_set32_ne _ _ _ _ (by decide), get32_set32_ne _ _ _ _ (by decide),
      get32_set32_same]
  · simp only [format_super]
    rw [get32_set32_ne _ _ _ _ (by decide), h2]
  · simp only [format_super]
    rw [get32_set32_same, h2]
    rfl

/-- Past its 16-byte superblock the block `fs_format` builds is zero. -/
theorem format_super_rest (n i : Nat) (hi : 16 ≤ i) : format_super n i = 0 := by
  simp only [format_super]
  rw [set32_other _ _ _ _ (by omega), set32_other _ _ _ _ (by omega),
    set32_other _ _ _ _ (by omega), set32_other _ _ _ _ (by omega)]
  rfl

/-- The superblock of a device of at most `2 ^ 32 - 128` blocks, where no
field is truncated. -/
theorem format_super_small (n : Nat) (hn : n ≤ 4294967168) :
    Block_super (format_super n) =
      { magic_number := MAGIC_NUMBER, blocks := n, inode_blocks := (n + 127) / 128,
        inodes := (n + 127) / 128 * 128 } := by
  obtain ⟨h0, h1, h2, h3⟩ := format_super_fields n
  simp only [Block_super, h0, h1, h2, h3, SIZE_MOD, U32_MOD]
  congr 1 <;> omega

/-- C7 (as amended, for devices of at most 2^32 - 128 blocks): when
`fs_format` returns true the device keeps its block count, block 0 begins with
`magic_number = 0xF0F03410`, `blocks` = the device block count,
`inode_blocks = ceil(blocks / 128)` and `inodes = inode_blocks * 128`, the rest
of block 0 is zero, and every block `1 .. blocks - 1` is entirely zero. -/
theorem C7_format_layout (fs : FileSystem) (disk : Option Nat) (d : Disk)
    (hsize : d.blocks ≤ 4294967168) (h : (fs_format fs disk d).1 = true) :
    (fs_format fs disk d).2.blocks = d.blocks ∧
    get32 ((fs_format fs disk d).2.data 0) 0 = 0xF0F03410 ∧
    get32 ((fs_format fs disk d).2.data 0) 1 = d.blocks ∧
    get32 ((fs_format fs disk d).2.data 0) 2 = d.blocks ⌈/⌉ 128 ∧
    get32 ((fs_format fs disk d).2.data 0) 3 = (d.blocks ⌈/⌉ 128) * 128 ∧
    (∀ i, 16 ≤ i → i < BLOCK_SIZE → (fs_format fs disk d).2.data 0 i = 0) ∧
    (∀ b, 1 ≤ b → b < d.blocks → ∀ i, i < BLOCK_SIZE → (fs_format fs disk d).2.data b i = 0) := by
  obtain ⟨hd, hm, hb⟩ := fs_format_true_pre fs disk d h
  obtain ⟨d', hf, hblocks, h0, hrest⟩ := fs_format_spec fs disk d hd hm hb
  have hs := format_super_small d.blocks hsize
  simp only [Block_super, SuperBlock.mk.injEq] at hs
  obtain ⟨s0, s1, s2, s3⟩ := hs
  have hc : d.blocks ⌈/⌉ 128 = (d.blocks + 127) / 128 :=
    Nat.ceilDiv_eq_add_pred_div d.blocks 128
  rw [hf, hc]
  refine ⟨hblocks, ?_, ?_, ?_, ?_, ?_, ?_⟩
  · show get32 (d'.data 0) 0 = _
    rw [h0, s0]
    rfl
  · show get32 (d'.data 0) 1 = _
    rw [h0, s1]
  · show get32 (d'.data 0) 2 = _
    rw [h0, s2]
  · show get32 (d'.data 0) 3 = _
    rw [h0, s3]
  · intro i hi _
    show d'.data 0 i = 0
    rw [h0]
    exact format_super_rest _ i hi
  · intro b h1 hlt i _
    show d'.data b i = 0
    rw [hrest b h1 hlt]
    rfl

/-- Witness of C7: the 10-block device of the specification's scenario. -/
theorem C7_format_layout_witness :
    (fs_format fs0 (some 0) (blankDisk 10)).1 = true ∧
    get32 (freshDisk.data 0) 0 = 0xF0F03410 ∧ get32 (freshDisk.data 0) 1 = 10 ∧
    get32 (freshDisk.data 0) 2 = 1 ∧ get32 (freshDisk.data 0) 3 = 128 := by
  have h := C7_format_layout fs0 (some 0) (blankDisk 10) (by decide) (by decide)
  exact ⟨by decide, h.2.1, h.2.2.1, h.2.2.2.1, h.2.2.2.2.1⟩

/-- Counterexample to C7 as stated: on a device of 2^32 - 1 blocks `fs_format`
returns true and stores `inode_blocks = 2^25` but `inodes = 0`, since
`inode_blocks * 128` does not fit the 32-bit field. -/
theorem C7_format_layout_counterexample :
    (fs_format fs0 (some 0) (blankDisk 4294967295)).1 = true ∧
    get32 ((fs_format fs0 (some 0) (blankDisk 4294967295)).2.data 0) 2 = 33554432 ∧
    get32 ((fs_format fs0 (some 0) (blankDisk 4294967295)).2.data 0) 3 = 0 := by
  obtain ⟨d', hf, _, h0, _⟩ := fs_format_spec fs0 (some 0) (blankDisk 4294967295)
    (by simp) (by simp [fs0]) (by decide)
  obtain ⟨_, _, h2, h3⟩ := format_super_fields 4294967295
  rw [hf]
  refine ⟨rfl, ?_, ?_⟩
  · show get32 (d'.data 0) 2 = _
    rw [h0]
    exact h2
  · show get32 (d'.data 0) 3 = _
    rw [h0]
    exact h3

/-- C8: a filesystem bound to the device (`fs->disk == disk`) is refused by
`fs_format`, which returns false and leaves every block of the device as it
was; the function has no access path that writes the filesystem record. -/
theorem C8_format_refuses_mounted (fs : FileSystem) (disk : Option Nat) (d : Disk)
    (h : fs.disk = disk) : fs_format fs disk d = (false, d) := by
  unfold fs_format
  by_cases hd : disk = none
  · rw [if_pos hd]
  · rw [if_neg hd, if_pos h]

/-- Witness of C8: the mounted filesystem of the 10-block scenario. -/
theorem C8_format_refuses_mounted_witness :
    freshFs.disk = some 0 ∧ fs_format freshFs (some 0) freshDisk = (false, freshDisk) :=
  ⟨by decide, C8_format_refuses_mounted freshFs (some 0) freshDisk (by decide)⟩

/-! ## The bitmap -/

theorem setFree_eq_some {bm bm' : List Bool} {i : Nat} {v : Bool}
    (h : setFree bm i v = some bm') : i < bm.length ∧ bm' = bm.set i v := by
  unfold setFree at h
  by_cases hi : i < bm.length
  · rw [if_pos hi] at h
    exact ⟨hi, (Option.some.inj h).symm⟩
  · rw [if_neg hi] at h
    exact absurd h (by simp)

theorem setFree_eq_none {bm : List Bool} {i : Nat} {v : Bool}
    (h : setFree bm i v = none) : ¬ i < bm.length := by
  unfold setFree at h
  intro hi
  rw [if_pos hi] at h
  exact absurd h (by simp)

theorem setFree_of_lt (bm : List Bool) {i : Nat} (v : Bool) (h : i < bm.length) :
    setFree bm i v = some (bm.set i v) := by
  unfold setFree
  rw [if_pos h]

theorem Marked.refl (v : Bool) (bm : List Bool) (S : Nat → Prop) (h : ∀ k, ¬ S k) :
    Marked v bm bm S :=
  ⟨rfl, fun k => ⟨Or.inl, fun hk => hk.elim id (fun hs => absurd hs.2 (h k))⟩⟩

theorem Marked.trans {v : Bool} {a b c : List Bool} {S T : Nat → Prop}
    (h1 : Marked v a b S) (h2 : Marked v b c T) : Marked v a c (fun k => S k ∨ T k) := by
  refine ⟨h2.1.trans h1.1, fun k => ?_⟩
  rw [h2.2 k, h1.2 k, h1.1]
  tauto

theorem Marked.congr {v : Bool} {a b : List Bool} {S T : Nat → Prop}
    (h : Marked v a b S) (hST : ∀ k, k < a.length → (S k ↔ T k)) : Marked v a b T := by
  refine ⟨h.1, fun k => ?_⟩
  rw [h.2 k]
  constructor
  · rintro (hk | ⟨hlt, hs⟩)
    · exact Or.inl hk
    · exact Or.inr ⟨hlt, (hST k hlt).1 hs⟩
  · rintro (hk | ⟨hlt, hs⟩)
    · exact Or.inl hk
    · exact Or.inr ⟨hlt, (hST k hlt).2 hs⟩

theorem Marked.set (v : Bool) (bm : List Bool) {i : Nat} (hi : i < bm.length) :
    Marked v bm (bm.set i v) (fun k => k = i) := by
  refine ⟨List.length_set bm i v, fun k => ?_⟩
  rw [List.getElem?_set]
  by_cases hik : i = k
  · subst hik
    simp [hi]
  · rw [if_neg hik]
    constructor
    · exact Or.inl
    · rintro (hk | ⟨_, hk⟩)
      · exact hk
      · exact absurd hk.symm hik

/-- A loop whose iterations each mark the indices `R i` marks their union. -/
theorem forLoop_marked {ρ : Type} (v : Bool) (body : Nat → List Bool → Step (List Bool) ρ)
    (R : Nat → Nat → Prop) (l : List Nat)
    (hbody : ∀ i, i ∈ l → ∀ bm bm', body i bm = Step.next bm' → Marked v bm bm' (R i)) :
    ∀ bm bm', forLoop body l bm = Step.next bm' →
      Marked v bm bm' (fun k => ∃ i, i ∈ l ∧ R i k) := by
  induction l with
  | nil =>
    intro bm bm' h
    simp only [forLoop, Step.next.injEq] at h
    subst h
    exact Marked.refl v bm _ (fun k => by simp)
  | cons i l ih =>
    intro bm bm' h
    cases hb : body i bm with
    | next bm1 =>
      rw [forLoop_cons_next l hb] at h
      have h1 := hbody i (List.mem_cons_self i l) bm bm1 hb
      have h2 := ih (fun j hj => hbody j (List.mem_cons_of_mem i hj)) bm1 bm' h
      refine (h1.trans h2).congr (fun k _ => ?_)
      simp only [List.mem_cons, exists_eq_or_imp]
    | ret r =>
      rw [forLoop_cons_ret l hb] at h
      exact absurd h (by simp)

/-! ## `fs_mount` -/

theorem mark_pointer_next {v : Bool} {p : Nat} {bm bm' : List Bool}
    (h : mark_pointer v p bm = Step.next bm') :
    Marked v bm bm' (fun k => k ≠ 0 ∧ p = k) := by
  unfold mark_pointer at h
  by_cases hp : p ≠ 0
  · rw [if_pos hp] at h
    cases hs : setFree bm p v with
    | none => simp [hs] at h
    | some bm1 =>
      simp only [hs, Step.next.injEq] at h
      subst h
      obtain ⟨hlt, rfl⟩ := setFree_eq_some hs
      refine (Marked.set v bm hlt).congr (fun k _ => ?_)
      constructor
      · rintro rfl
        exact ⟨hp, rfl⟩
      · rintro ⟨_, rfl⟩
        rfl
  · rw [if_neg hp] at h
    simp only [Step.next.injEq] at h
    subst h
    refine Marked.refl v bm _ (fun k hk => hp ?_)
    rw [hk.2]
    exact hk.1

theorem mark_pointer_ret {v : Bool} {p : Nat} {bm : List Bool} {r : Option (List Bool)}
    (h : mark_pointer v p bm = Step.ret r) : r = none ∧ p ≠ 0 ∧ ¬ p < bm.length := by
  unfold mark_pointer at h
  by_cases hp : p ≠ 0
  · rw [if_pos hp] at h
    cases hs : setFree bm p v with
    | none =>
      simp only [hs, Step.ret.injEq] at h
      exact ⟨h.symm, hp, setFree_eq_none hs⟩
    | some bm1 => simp [hs] at h
  · rw [if_neg hp] at h
    exact absurd h (by simp)

/-- A loop over a table of pointers `f`, when it ends normally, has stored `v`
at exactly the non-zero pointers of the table. -/
theorem mark_pointers_next (v : Bool) (f : Nat → Nat) (l : List Nat) (bm bm' : List Bool)
    (h : forLoop (fun j bm => mark_pointer v (f j) bm) l bm = Step.next bm') :
    Marked v bm bm' (fun k => k ≠ 0 ∧ ∃ j, j ∈ l ∧ f j = k) := by
  refine (forLoop_marked v _ (fun j k => k ≠ 0 ∧ f j = k) l
    (fun j _ bm bm' hb => mark_pointer_next hb) bm bm' h).congr (fun k _ => ?_)
  constructor
  · rintro ⟨j, hj, hk, hf⟩
    exact ⟨hk, j, hj, hf⟩
  · rintro ⟨hk, j, hj, hf⟩
    exact ⟨j, hj, hk, hf⟩

/-- A loop over a table of pointers leaves through a `return` only at a
pointer outside the bitmap. -/
theorem mark_pointers_ret (v : Bool) (f : Nat → Nat) (l : List Nat) (bm : List Bool)
    (r : Option (List Bool))
    (h : forLoop (fun j bm => mark_pointer v (f j) bm) l bm = Step.ret r) :
    r = none ∧ ∃ j, j ∈ l ∧ f j ≠ 0 ∧ ¬ f j < bm.length := by
  obtain ⟨j, bm1, hj, hlen, hb⟩ := forLoop_ret_inv _ (fun b => b.length = bm.length) l
    (fun j _ b b' hI hb => (mark_pointer_next hb).1.trans hI) bm r rfl h
  obtain ⟨hr, hp, hlt⟩ := mark_pointer_ret hb
  exact ⟨hr, j, hj, hp, by rwa [hlen] at hlt⟩

/-- The iteration of `fs_mount` for one inode slot marks exactly the blocks the
slot references. -/
theorem mount_inode_next {disk : Option Nat} {d : Disk} {inodes : Block} {i : Nat}
    {bm bm' : List Bool} (h : mount_inode disk d inodes i bm = Step.next bm') :
    Marked false bm bm' (slotRefs d inodes i) := by
  unfold mount_inode at h
  by_cases hv : inode_valid inodes i = 1
  · rw [if_pos hv] at h
    cases h1 : forLoop (fun j bm => mark_pointer false (inode_direct inodes i j) bm)
        (List.range POINTERS_PER_INODE) bm with
    | ret r => simp [h1] at h
    | next bm1 =>
      simp only [h1] at h
      have m1 := mark_pointers_next false _ _ _ _ h1
      by_cases hi : inode_indirect inodes i ≠ 0
      · rw [if_pos hi] at h
        cases h2 : setFree bm1 (inode_indirect inodes i) false with
        | none => simp [h2] at h
        | some bm2 =>
          simp only [h2] at h
          obtain ⟨hlt, rfl⟩ := setFree_eq_some h2
          have m2 := Marked.set false bm1 hlt
          cases h3 : disk_read disk d (inode_indirect inodes i) with
          | none => simp [h3] at h
          | some blk =>
            simp only [h3] at h
            obtain ⟨_, hblk, rfl⟩ := disk_read_eq_some h3
            have m3 := mark_pointers_next false _ _ _ _ h
            refine ((m1.trans m2).trans m3).congr (fun k _ => ?_)
            simp only [slotRefs, List.mem_range]
            constructor
            · rintro ((⟨hk, hj⟩ | rfl) | ⟨hk, hj⟩)
              · exact ⟨hv, hk, Or.inl hj⟩
              · exact ⟨hv, hi, Or.inr (Or.inl rfl)⟩
              · exact ⟨hv, hk, Or.inr (Or.inr ⟨hi, hblk, hj⟩)⟩
            · rintro ⟨_, hk, (hj | rfl | ⟨_, _, hj⟩)⟩
              · exact Or.inl (Or.inl ⟨hk, hj⟩)
              · exact Or.inl (Or.inr rfl)
              · exact Or.inr ⟨hk, hj⟩
      · rw [if_neg hi] at h
        simp only [Step.next.injEq] at h
        subst h
        have hi0 : inode_indirect inodes i = 0 := by
          by_contra hne
          exact hi hne
        refine m1.congr (fun k _ => ?_)
        simp only [slotRefs, List.mem_range]
        constructor
        · rintro ⟨hk, hj⟩
          exact ⟨hv, hk, Or.inl hj⟩
        · rintro ⟨_, hk, (hj | hik | ⟨hne, _⟩)⟩
          · exact ⟨hk, hj⟩
          · exact absurd (hik.symm.trans hi0) hk
          · exact absurd hi0 hne
  · rw [if_neg hv] at h
    simp only [Step.next.injEq] at h
    subst h
    exact Marked.refl false bm _ (fun k hk => hv hk.1)

/-- The iteration of `fs_mount` for one inode slot has defined behaviour when
the pointers of the slot are inside the bitmap. -/
theorem mount_inode_defined {disk : Option Nat} {d : Disk} {inodes : Block} {i : Nat}
    {bm : List Bool}
    (hsafe : inode_valid inodes i = 1 →
      (∀ j, j < POINTERS_PER_INODE → inode_direct inodes i j < bm.length) ∧
      inode_indirect inodes i < bm.length ∧
      (inode_indirect inodes i ≠ 0 → inode_indirect inodes i < d.blocks →
        ∀ j, j < POINTERS_PER_BLOCK → get32 (d.data (inode_indirect inodes i)) j < bm.length)) :
    mount_inode disk d inodes i bm ≠ Step.ret none := by
  intro h
  unfold mount_inode at h
  by_cases hv : inode_valid inodes i = 1
  · obtain ⟨hdir, hind, hent⟩ := hsafe hv
    rw [if_pos hv] at h
    cases h1 : forLoop (fun j bm => mark_pointer false (inode_direct inodes i j) bm)
        (List.range POINTERS_PER_INODE) bm with
    | ret r =>
      obtain ⟨_, j, hj, _, hlt⟩ := mark_pointers_ret false _ _ _ _ h1
      exact hlt (hdir j (List.mem_range.1 hj))
    | next bm1 =>
      simp only [h1] at h
      have m1 := mark_pointers_next false _ _ _ _ h1
      by_cases hi : inode_indirect inodes i ≠ 0
      · rw [if_pos hi] at h
        cases h2 : setFree bm1 (inode_indirect inodes i) false with
        | none => exact setFree_eq_none h2 (by rw [m1.1]; exact hind)
        | some bm2 =>
          simp only [h2] at h
          obtain ⟨hlt, rfl⟩ := setFree_eq_some h2
          cases h3 : disk_read disk d (inode_indirect inodes i) with
          | none => simp [h3] at h
          | some blk =>
            simp only [h3] at h
            obtain ⟨_, hblk, rfl⟩ := disk_read_eq_some h3
            obtain ⟨_, j, hj, _, hlt'⟩ := mark_pointers_ret false _ _ _ _ h
            rw [List.length_set, m1.1] at hlt'
            exact hlt' (hent hi hblk j (List.mem_range.1 hj))
      · rw [if_neg hi] at h
        exact absurd h (by simp)
  · rw [if_neg hv] at h
    exact absurd h (by simp)

/-- The iteration of `fs_mount` for one inode block marks exactly the blocks
its 128 slots reference. -/
theorem mount_block_next {disk : Option Nat} {d : Disk} {b : Nat} {bm bm' : List Bool}
    (h : mount_block disk d b bm = Step.next bm') :
    Marked false bm bm' (fun k => ∃ i, i < INODES_PER_BLOCK ∧ slotRefs d (d.data b) i k) := by
  unfold mount_block at h
  cases h1 : disk_read disk d b with
  | none => simp [h1] at h
  | some blk =>
    simp only [h1] at h
    obtain ⟨_, _, rfl⟩ := disk_read_eq_some h1
    refine (forLoop_marked false _ (slotRefs d (d.data b)) _
      (fun i _ bm bm' hb => mount_inode_next hb) bm bm' h).congr (fun k _ => ?_)
    simp only [List.mem_range]

theorem mount_block_defined {disk : Option Nat} {d : Disk} {b : Nat} {bm : List Bool}
    (hsafe : ∀ i, i < INODES_PER_BLOCK → inode_valid (d.data b) i = 1 →
      (∀ j, j < POINTERS_PER_INODE → inode_direct (d.data b) i j < bm.length) ∧
      inode_indirect (d.data b) i < bm.length ∧
      (inode_indirect (d.data b) i ≠ 0 → inode_indirect (d.data b) i < d.blocks →
        ∀ j, j < POINTERS_PER_BLOCK →
          get32 (d.data (inode_indirect (d.data b) i)) j < bm.length)) :
    mount_block disk d b bm ≠ Step.ret none := by
  intro h
  unfold mount_block at h
  cases h1 : disk_read disk d b with
  | none => simp [h1] at h
  | some blk =>
    simp only [h1] at h
    obtain ⟨_, _, rfl⟩ := disk_read_eq_some h1
    obtain ⟨i, bm1, hi, hlen, hb⟩ := forLoop_ret_inv _ (fun x => x.length = bm.length) _
      (fun i _ x x' hI hx => (mount_inode_next hx).1.trans hI) bm none rfl h
    refine mount_inode_defined ?_ hb
    rw [hlen]
    exact hsafe i (List.mem_range.1 hi)

/-- The blocks the inode-table scan of `fs_mount` visits are the inodes of
`Referenced`: slot `i` of block `b` is inode number `(b - 1) * 128 + i`. -/
theorem scan_iff_Referenced (sb : SuperBlock) (d : Disk) (k : Nat) :
    (∃ b, b ∈ List.range' 1 sb.inode_blocks ∧
        ∃ i, i < INODES_PER_BLOCK ∧ slotRefs d (d.data b) i k) ↔ Referenced sb d k := by
  unfold Referenced inodeRefs INODES_PER_BLOCK
  constructor
  · rintro ⟨b, hb, i, hi, hr⟩
    rw [List.mem_range'] at hb
    obtain ⟨c, hc, rfl⟩ := hb
    refine ⟨c * 128 + i, by omega, ?_⟩
    have e1 : 1 + (c * 128 + i) / 128 = 1 + 1 * c := by omega
    have e2 : (c * 128 + i) % 128 = i := by omega
    rw [e1, e2]
    exact hr
  · rintro ⟨n, hn, hr⟩
    refine ⟨1 + n / 128, ?_, n % 128, Nat.mod_lt n (by decide), hr⟩
    rw [List.mem_range']
    exact ⟨n / 128, by omega, by omega⟩

/-- The reservation loop of `fs_mount` over in-range indices ends normally. -/
theorem mount_reserve_spec (l : List Nat) :
    ∀ bm : List Bool, (∀ i, i ∈ l → i < bm.length) →
      ∃ bm', forLoop mount_reserve l bm = Step.next bm' ∧
        Marked false bm bm' (fun k => k ∈ l) := by
  induction l with
  | nil =>
    intro bm _
    exact ⟨bm, rfl, Marked.refl false bm _ (fun k => by simp)⟩
  | cons i l ih =>
    intro bm hl
    have hi : i < bm.length := hl i (List.mem_cons_self i l)
    have hb : mount_reserve i bm = Step.next (bm.set i false) := by
      unfold mount_reserve
      rw [setFree_of_lt bm false hi]
    obtain ⟨bm', h', m'⟩ := ih (bm.set i false)
      (fun j hj => by rw [List.length_set]; exact hl j (List.mem_cons_of_mem i hj))
    refine ⟨bm', ?_, ?_⟩
    · rw [forLoop_cons_next l hb, h']
    · refine ((Marked.set false bm hi).trans m').congr (fun k _ => ?_)
      simp only [List.mem_cons]

/-- The reservation loop of `fs_mount` leaves through a `return` only at an
index outside the bitmap. -/
theorem mount_reserve_ret (l : List Nat) (bm : List Bool) (r : Option (List Bool))
    (h : forLoop mount_reserve l bm = Step.ret r) : ∃ i, i ∈ l ∧ ¬ i < bm.length := by
  by_contra hall
  have hall' : ∀ i, i ∈ l → i < bm.length := by
    intro i hi
    by_contra hlt
    exact hall ⟨i, hi, hlt⟩
  obtain ⟨bm', h', _⟩ := mount_reserve_spec l bm hall'
  rw [h'] at h
  exact absurd h (by simp)

theorem mount_reserve_next {i : Nat} {bm bm' : List Bool}
    (h : mount_reserve i bm = Step.next bm') : Marked false bm bm' (fun k => k = i) := by
  unfold mount_reserve at h
  cases hs : setFree bm i false with
  | none => simp [hs] at h
  | some bm1 =>
    simp only [hs, Step.next.injEq] at h
    subst h
    obtain ⟨hlt, rfl⟩ := setFree_eq_some hs
    exact Marked.set false bm hlt

theorem replicate_true_ne_false (n k : Nat) : (List.replicate n true)[k]? ≠ some false := by
  rw [List.getElem?_replicate]
  by_cases hk : k < n
  · rw [if_pos hk]
    simp
  · rw [if_neg hk]
    simp

/-- What a successful `fs_mount` leaves in the filesystem record: the device
binding, the superblock of block 0, and a bitmap of `blocks` entries that is
false exactly on `[0 .. inode_blocks]` and on the blocks referenced by valid
inodes. -/
theorem fs_mount_true {fs : FileSystem} {disk : Option Nat} {d : Disk} {fs' : FileSystem}
    (h : fs_mount fs disk d = some (true, fs')) :
    fs'.disk = disk ∧ fs'.meta_data = Block_super (d.data 0) ∧
    ∃ bm, fs'.free_blocks = some bm ∧ bm.length = (Block_super (d.data 0)).blocks ∧
      ∀ k, k < (Block_super (d.data 0)).blocks →
        (bm[k]? = some false ↔
          (k ≤ (Block_super (d.data 0)).inode_blocks ∨
            Referenced (Block_super (d.data 0)) d k)) := by
  unfold fs_mount at h
  by_cases hd : disk = none
  · simp [hd] at h
  rw [if_neg hd] at h
  by_cases hm : fs.disk = disk
  · simp [hm] at h
  rw [if_neg hm] at h
  cases h0 : disk_read disk d 0 with
  | none => simp [h0] at h
  | some sblk =>
    obtain ⟨_, _, rfl⟩ := disk_read_eq_some h0
    simp only [h0] at h
    cases h1 : forLoop mount_reserve (List.range ((Block_super (d.data 0)).inode_blocks + 1))
        (List.replicate (Block_super (d.data 0)).blocks true) with
    | ret r =>
      rw [h1] at h
      cases r <;> simp at h
    | next bm1 =>
      rw [h1] at h
      simp only at h
      cases h2 : forLoop (mount_block disk d)
          (List.range' 1 (Block_super (d.data 0)).inode_blocks) bm1 with
      | ret r =>
        rw [h2] at h
        cases r <;> simp at h
      | next bm2 =>
        rw [h2] at h
        simp only [Option.some.injEq, Prod.mk.injEq, true_and] at h
        subst h
        have m1 := forLoop_marked false mount_reserve (fun i k => k = i) _
          (fun i _ bm bm' hb => mount_reserve_next hb) _ _ h1
        have m2 := forLoop_marked false (mount_block disk d)
          (fun b k => ∃ i, i < INODES_PER_BLOCK ∧ slotRefs d (d.data b) i k) _
          (fun b _ bm bm' hb => mount_block_next hb) _ _ h2
        have hlen1 : bm1.length = (Block_super (d.data 0)).blocks := by
          rw [m1.1, List.length_replicate]
        refine ⟨rfl, rfl, bm2, rfl, m2.1.trans hlen1, fun k hk => ?_⟩
        rw [m2.2 k, m1.2 k]
        beta_reduce
        rw [scan_iff_Referenced, List.length_replicate, hlen1]
        have hr := replicate_true_ne_false (Block_super (d.data 0)).blocks k
        constructor
        · rintro ((hf | ⟨_, i, hi, rfl⟩) | ⟨_, href⟩)
          · exact absurd hf hr
          · exact Or.inl (Nat.lt_succ_iff.1 (List.mem_range.1 hi))
          · exact Or.inr href
        · rintro (hle | href)
          · exact Or.inl (Or.inr ⟨hk, k, List.mem_range.2 (Nat.lt_succ_iff.2 hle), rfl⟩)
          · exact Or.inr ⟨hk, href⟩

/-- On an image whose superblock has `inode_blocks < blocks` and whose valid
inodes point below `blocks`, every bitmap access of `fs_mount` is inside the
vector: the call has defined behaviour. -/
theorem fs_mount_defined (fs : FileSystem) (disk : Option Nat) (d : Disk)
    (hib : (Block_super (d.data 0)).inode_blocks < (Block_super (d.data 0)).blocks)
    (hptr : PointersBelow (Block_super (d.data 0)) d (Block_super (d.data 0)).blocks) :
    fs_mount fs disk d ≠ none := by
  intro h
  unfold fs_mount at h
  by_cases hd : disk = none
  · simp [hd] at h
  rw [if_neg hd] at h
  by_cases hm : fs.disk = disk
  · simp [hm] at h
  rw [if_neg hm] at h
  cases h0 : disk_read disk d 0 with
  | none => simp [h0] at h
  | some sblk =>
    obtain ⟨_, _, rfl⟩ := disk_read_eq_some h0
    simp only [h0] at h
    obtain ⟨bm1, h1, m1⟩ := mount_reserve_spec
      (List.range ((Block_super (d.data 0)).inode_blocks + 1))
      (List.replicate (Block_super (d.data 0)).blocks true)
      (fun i hi => by
        rw [List.length_replicate]
        have := List.mem_range.1 hi
        omega)
    have hlen1 : bm1.length = (Block_super (d.data 0)).blocks := by
      rw [m1.1, List.length_replicate]
    rw [h1] at h
    simp only at h
    cases h2 : forLoop (mount_block disk d)
        (List.range' 1 (Block_super (d.data 0)).inode_blocks) bm1 with
    | next bm2 =>
      rw [h2] at h
      simp at h
    | ret r =>
      cases r with
      | some bm2 =>
        rw [h2] at h
        simp at h
      | none =>
        obtain ⟨b, bm3, hb, hlen3, hret⟩ := forLoop_ret_inv (mount_block disk d)
          (fun x => x.length = bm1.length) _
          (fun b _ x x' hI hx => (mount_block_next hx).1.trans hI) bm1 none rfl h2
        refine mount_block_defined (fun i hi hv => ?_) hret
        rw [List.mem_range'] at hb
        obtain ⟨c, hc, rfl⟩ := hb
        have e1 : 1 + (c * 128 + i) / INODES_PER_BLOCK = 1 + 1 * c := by
          unfold INODES_PER_BLOCK at hi ⊢
          omega
        have e2 : (c * 128 + i) % INODES_PER_BLOCK = i := by
          unfold INODES_PER_BLOCK at hi ⊢
          omega
        have hp := hptr (c * 128 + i) (by unfold INODES_PER_BLOCK at hi ⊢; omega)
        rw [e1, e2] at hp
        rw [hlen3, hlen1]
        exact hp hv

/-- C5: on an image whose superblock has `inode_blocks < blocks` and whose
valid inodes hold only pointers below `blocks`, `fs_mount` has defined
behaviour, and when it returns true `meta_data` is the superblock stored in
block 0 and `free_blocks` has length `blocks` with, for every `k < blocks`,
`free_blocks[k]` false if and only if `k <= inode_blocks` or `k` is a non-zero
direct pointer, the non-zero indirect pointer or a non-zero indirect-block
entry of some inode with `valid = 1`. -/
theorem C5_mount_reconstructs_bitmap (fs : FileSystem) (disk : Option Nat) (d : Disk)
    (hib : (Block_super (d.data 0)).inode_blocks < (Block_super (d.data 0)).blocks)
    (hptr : PointersBelow (Block_super (d.data 0)) d (Block_super (d.data 0)).blocks) :
    ∃ ok fs', fs_mount fs disk d = some (ok, fs') ∧
      (ok = true →
        fs'.meta_data = Block_super (d.data 0) ∧
        ∃ bm, fs'.free_blocks = some bm ∧ bm.length = (Block_super (d.data 0)).blocks ∧
          ∀ k, k < (Block_super (d.data 0)).blocks →
            (bm[k]? = some false ↔
              (k ≤ (Block_super (d.data 0)).inode_blocks ∨
                Referenced (Block_super (d.data 0)) d k))) := by
  cases h : fs_mount fs disk d with
  | none => exact absurd h (fs_mount_defined fs disk d hib hptr)
  | some r =>
    obtain ⟨ok, fs'⟩ := r
    refine ⟨ok, fs', rfl, fun hok => ?_⟩
    subst hok
    exact (fs_mount_true h).2

/-- Witness of C5: the 10-block image `fileDisk` with one file (a direct
block, an indirect block and one entry in it), which mounts successfully. -/
theorem C5_mount_reconstructs_bitmap_witness :
    (fs_mount fs0 (some 0) fileDisk).map Prod.fst = some true ∧
    ∃ ok fs', fs_mount fs0 (some 0) fileDisk = some (ok, fs') ∧
      (ok = true →
        fs'.meta_data = Block_super (fileDisk.data 0) ∧
        ∃ bm, fs'.free_blocks = some bm ∧ bm.length = (Block_super (fileDisk.data 0)).blocks ∧
          ∀ k, k < (Block_super (fileDisk.data 0)).blocks →
            (bm[k]? = some false ↔
              (k ≤ (Block_super (fileDisk.data 0)).inode_blocks ∨
                Referenced (Block_super (fileDisk.data 0)) fileDisk k))) :=
  ⟨by decide!, C5_mount_reconstructs_bitmap fs0 (some 0) fileDisk (by decide!) (by decide!)⟩

/-! ## Mounting a formatted image -/

/-- On a device whose inode table holds no valid inode, `fs_mount` succeeds
and its result does not depend on the record it is given: the bitmap is the
all-true vector with `[0 .. inode_blocks]` reserved. -/
theorem fs_mount_empty_table (disk : Option Nat) (d : Disk) (hd : disk ≠ none)
    (hib : (Block_super (d.data 0)).inode_blocks < (Block_super (d.data 0)).blocks)
    (hdev : (Block_super (d.data 0)).inode_blocks < d.blocks)
    (hzero : ∀ b i, 1 ≤ b → b ≤ (Block_super (d.data 0)).inode_blocks →
      inode_valid (d.data b) i ≠ 1) :
    ∃ bm, Marked false (List.replicate (Block_super (d.data 0)).blocks true) bm
        (fun k => k ∈ List.range ((Block_super (d.data 0)).inode_blocks + 1)) ∧
      ∀ fs : FileSystem, fs.disk ≠ disk →
        fs_mount fs disk d = some (true,
          { disk := disk, free_blocks := some bm, meta_data := Block_super (d.data 0) }) := by
  obtain ⟨bm1, h1, m1⟩ := mount_reserve_spec
    (List.range ((Block_super (d.data 0)).inode_blocks + 1))
    (List.replicate (Block_super (d.data 0)).blocks true)
    (fun i hi => by
      rw [List.length_replicate]
      have := List.mem_range.1 hi
      omega)
  have h2 : forLoop (mount_block disk d)
      (List.range' 1 (Block_super (d.data 0)).inode_blocks) bm1 = Step.next bm1 := by
    apply forLoop_skip
    intro b hb
    rw [List.mem_range'] at hb
    obtain ⟨c, hc, rfl⟩ := hb
    unfold mount_block
    rw [disk_read_of_lt hd (by omega)]
    apply forLoop_skip
    intro i _
    unfold mount_inode
    rw [if_neg (hzero _ i (by omega) (by omega))]
  refine ⟨bm1, m1, fun fs hm => ?_⟩
  unfold fs_mount
  rw [if_neg hd, if_neg hm, disk_read_of_lt hd (by omega)]
  simp only [h1, h2]

/-- The superblock `fs_format` writes on a device of fewer than 2^32 blocks:
`blocks` and `inode_blocks` are not truncated. -/
theorem format_super_lt (n : Nat) (hn : n < 4294967296) :
    (Block_super (format_super n)).blocks = n ∧
    (Block_super (format_super n)).inode_blocks = (n + 127) / 128 := by
  obtain ⟨_, h1, h2, _⟩ := format_super_fields n
  simp only [Block_super, h1, h2, SIZE_MOD, U32_MOD]
  constructor <;> omega

/-- C6 (as amended, for devices of at least 2 and fewer than 2^32 blocks): from
an unattached filesystem, `fs_format`, `fs_mount`, `fs_unmount`, `fs_mount`
each succeed, the second mount yields the same `meta_data` and the same
`free_blocks` vector as the first, and that vector has one entry per block,
false exactly on `[0 .. inode_blocks]` and true elsewhere. -/
theorem C6_mount_idempotent (fs : FileSystem) (p : Nat) (d : Disk)
    (hfs : fs.disk = none) (h2 : 2 ≤ d.blocks) (h32 : d.blocks < 4294967296) :
    ∃ d1 fs1 fs2 bm,
      fs_format fs (some p) d = (true, d1) ∧
      fs_mount fs (some p) d1 = some (true, fs1) ∧
      fs_mount (fs_unmount fs1) (some p) d1 = some (true, fs2) ∧
      fs2.meta_data = fs1.meta_data ∧ fs2.free_blocks = fs1.free_blocks ∧
      fs1.free_blocks = some bm ∧ bm.length = d.blocks ∧
      ∀ i, i < d.blocks →
        (bm[i]? = some false ↔ i ≤ fs1.meta_data.inode_blocks) ∧
        (bm[i]? = some true ↔ fs1.meta_data.inode_blocks < i) := by
  obtain ⟨d1, hf, hblocks, hd0, hrest⟩ := fs_format_spec fs (some p) d (by simp)
    (by rw [hfs]; simp) (by omega)
  obtain ⟨sb1, sb2⟩ := format_super_lt d.blocks h32
  rw [← hd0] at sb1 sb2
  have hib : (Block_super (d1.data 0)).inode_blocks < (Block_super (d1.data 0)).blocks := by
    rw [sb1, sb2]
    omega
  obtain ⟨bm, m, hmount⟩ := fs_mount_empty_table (some p) d1 (by simp) hib
    (by rw [sb2, hblocks]; omega)
    (fun b i hb1 hb2 => by
      rw [hrest b hb1 (by rw [sb2] at hb2; omega)]
      unfold inode_valid
      rw [get32_zeroBlock]
      decide)
  have hlen : bm.length = d.blocks := by
    rw [m.1, List.length_replicate, sb1]
  refine ⟨d1, _, _, bm, hf, hmount fs (by rw [hfs]; simp),
    hmount (fs_unmount _) (by simp [fs_unmount]), rfl, rfl, rfl, hlen, fun i hi => ?_⟩
  have hfalse : bm[i]? = some false ↔ i ≤ (Block_super (d1.data 0)).inode_blocks := by
    rw [m.2 i, List.length_replicate, sb1]
    beta_reduce
    rw [List.mem_range]
    constructor
    · rintro (hr | ⟨_, hlt⟩)
      · exact absurd hr (replicate_true_ne_false _ _)
      · omega
    · intro hle
      exact Or.inr ⟨hi, by omega⟩
  refine ⟨hfalse, ?_⟩
  have hsome : bm[i]? = some bm[i] := List.getElem?_eq_getElem (by omega)
  rw [← Nat.not_le, ← hfalse, hsome]
  cases bm[i] <;> simp

/-- Witness of C6: the 10-block device of the specification's scenario. -/
theorem C6_mount_idempotent_witness :
    fs0.disk = none ∧ 2 ≤ (blankDisk 10).blocks ∧
    ∃ d1 fs1 fs2 bm,
      fs_format fs0 (some 0) (blankDisk 10) = (true, d1) ∧
      fs_mount fs0 (some 0) d1 = some (true, fs1) ∧
      fs_mount (fs_unmount fs1) (some 0) d1 = some (true, fs2) ∧
      fs2.meta_data = fs1.meta_data ∧ fs2.free_blocks = fs1.free_blocks ∧
      fs1.free_blocks = some bm ∧ bm.length = (blankDisk 10).blocks ∧
      ∀ i, i < (blankDisk 10).blocks →
        (bm[i]? = some false ↔ i ≤ fs1.meta_data.inode_blocks) ∧
        (bm[i]? = some true ↔ fs1.meta_data.inode_blocks < i) :=
  ⟨rfl, by decide, C6_mount_idempotent fs0 0 (blankDisk 10) rfl (by decide) (by decide)⟩

/-- Counterexample to C6 as stated: on a device of 2^32 blocks `fs_format`
succeeds and stores `blocks = 0` (the count truncated to 32 bits) with
`inode_blocks = 2^25`; `fs_mount` then allocates a bitmap of 0 entries and its
reservation loop writes `free_blocks[0]` outside it, so the mount does not
succeed. -/
theorem C6_mount_idempotent_counterexample :
    (fs_format fs0 (some 0) (blankDisk 4294967296)).1 = true ∧
    fs_mount fs0 (some 0) (fs_format fs0 (some 0) (blankDisk 4294967296)).2 = none := by
  obtain ⟨d', hf, hblocks, h0, _⟩ := fs_format_spec fs0 (some 0) (blankDisk 4294967296)
    (by simp) (by simp [fs0]) (by decide)
  obtain ⟨_, h1, h2, _⟩ := format_super_fields 4294967296
  rw [hf]
  refine ⟨rfl, ?_⟩
  show fs_mount fs0 (some 0) d' = none
  have hr : disk_read (some 0) d' 0 = some (d'.data 0) :=
    disk_read_of_lt (by simp) (by rw [hblocks]; decide)
  have hb : (Block_super (d'.data 0)).blocks = 0 := by
    rw [h0]
    exact h1
  have hloop : forLoop mount_reserve
      (List.range ((Block_super (d'.data 0)).inode_blocks + 1))
      (List.replicate (Block_super (d'.data 0)).blocks true) = Step.ret none := by
    rw [hb, List.range_succ_eq_map]
    exact forLoop_cons_ret _ rfl
  unfold fs_mount
  rw [if_neg (by simp), if_neg (by simp [fs0]), hr]
  simp only [hloop]

/-! ## `fs_remove` -/

theorem directAt_ne_validAt (i j : Nat) : directAt i j ≠ validAt i := by
  unfold directAt validAt
  omega

theorem directAt_inj {i j j' : Nat} (h : directAt i j = directAt i j') : j = j' := by
  unfold directAt at h
  omega

/-- The loop of `fs_remove` over the direct pointers, when the non-zero ones
are inside the bitmap: it ends normally, has freed exactly the non-zero direct
pointers, and has changed no word of the inode block but these pointers. -/
theorem remove_direct_spec (idx : Nat) (l : List Nat) :
    ∀ (bm : List Bool) (blk : Block),
      (∀ j, j ∈ l → inode_direct blk idx j ≠ 0 → inode_direct blk idx j < bm.length) →
      ∃ bm' blk', forLoop (remove_direct idx) l (bm, blk) = Step.next (bm', blk') ∧
        Marked true bm bm' (fun k => k ≠ 0 ∧ ∃ j, j ∈ l ∧ inode_direct blk idx j = k) ∧
        ∀ w, (∀ j, j ∈ l → w ≠ directAt idx j) → get32 blk' w = get32 blk w := by
  induction l with
  | nil =>
    intro bm blk _
    exact ⟨bm, blk, rfl, Marked.refl true bm _ (fun k hk => by simp at hk), fun _ _ => rfl⟩
  | cons i l ih =>
    intro bm blk hsafe
    by_cases hp : inode_direct blk idx i ≠ 0
    · have hlt := hsafe i (List.mem_cons_self i l) hp
      have hb : remove_direct idx i (bm, blk) =
          Step.next (bm.set (inode_direct blk idx i) true, set32 blk (directAt idx i) 0) := by
        unfold remove_direct
        simp only [if_pos hp, setFree_of_lt bm true hlt]
      have hdir : ∀ j, inode_direct (set32 blk (directAt idx i) 0) idx j =
          if j = i then 0 else inode_direct blk idx j := by
        intro j
        unfold inode_direct
        by_cases hji : j = i
        · rw [if_pos hji, hji, get32_set32_same]
          rfl
        · rw [if_neg hji, get32_set32_ne _ _ _ _ (fun h => hji (directAt_inj h))]
      obtain ⟨bm', blk', h', m', hw'⟩ := ih (bm.set (inode_direct blk idx i) true)
        (set32 blk (directAt idx i) 0)
        (fun j hj hne => by
          rw [List.length_set]
          rw [hdir j] at hne ⊢
          by_cases hji : j = i
          · rw [if_pos hji] at hne
            exact absurd rfl hne
          · rw [if_neg hji] at hne ⊢
            exact hsafe j (List.mem_cons_of_mem i hj) hne)
      refine ⟨bm', blk', ?_, ?_, ?_⟩
      · rw [forLoop_cons_next l hb, h']
      · refine ((Marked.set true bm hlt).trans m').congr (fun k _ => ?_)
        constructor
        · rintro (rfl | ⟨hk, j, hj, hjk⟩)
          · exact ⟨hp, i, List.mem_cons_self i l, rfl⟩
          · rw [hdir j] at hjk
            by_cases hji : j = i
            · rw [if_pos hji] at hjk
              exact absurd hjk.symm hk
            · rw [if_neg hji] at hjk
              exact ⟨hk, j, List.mem_cons_of_mem i hj, hjk⟩
        · rintro ⟨hk, j, hj, hjk⟩
          by_cases hji : j = i
          · left
            rw [← hjk, hji]
          · right
            refine ⟨hk, j, ?_, ?_⟩
            · exact (List.mem_cons.1 hj).resolve_left hji
            · rw [hdir j, if_neg hji]
              exact hjk
      · intro w hw
        rw [hw' w (fun j hj => hw j (List.mem_cons_of_mem i hj)),
          get32_set32_ne _ _ _ _ (hw i (List.mem_cons_self i l))]
    · have hb : remove_direct idx i (bm, blk) = Step.next (bm, blk) := by
        unfold remove_direct
        simp only [if_neg hp]
      have hp0 : inode_direct blk idx i = 0 := by
        by_contra hne
        exact hp hne
      obtain ⟨bm', blk', h', m', hw'⟩ := ih bm blk
        (fun j hj hne => hsafe j (List.mem_cons_of_mem i hj) hne)
      refine ⟨bm', blk', ?_, ?_, ?_⟩
      · rw [forLoop_cons_next l hb, h']
      · refine m'.congr (fun k _ => ?_)
        constructor
        · rintro ⟨hk, j, hj, hjk⟩
          exact ⟨hk, j, List.mem_cons_of_mem i hj, hjk⟩
        · rintro ⟨hk, j, hj, hjk⟩
          refine ⟨hk, j, ?_, hjk⟩
          refine (List.mem_cons.1 hj).resolve_left (fun hji => hk ?_)
          rw [← hjk, hji, hp0]
      · intro w hw
        exact hw' w (fun j hj => hw j (List.mem_cons_of_mem i hj))

theorem sizeAt_ne_validAt (i : Nat) : validAt i ≠ sizeAt i := by
  unfold sizeAt validAt
  omega

/-- After the inode block with `valid = 0` in slot `n % 128` is written back,
inode `n` is not valid and `fs_stat` returns -1. -/
theorem remove_written_back (fs : FileSystem) (d : Disk) (n : Nat) (blk1 : Block)
    (bmF : List Bool) (hd : fs.disk ≠ none) (hbn : 1 + n / INODES_PER_BLOCK < d.blocks)
    (hv : get32 blk1 (validAt (n % INODES_PER_BLOCK)) = 0) :
    ∃ d', disk_write fs.disk d (1 + n / INODES_PER_BLOCK)
        (set32 blk1 (sizeAt (n % INODES_PER_BLOCK)) 0) = some d' ∧
      ¬ slotValid d' n ∧
      fs_stat { fs with free_blocks := some bmF } d' n = -1 := by
  have hv' : get32 (set32 blk1 (sizeAt (n % INODES_PER_BLOCK)) 0)
      (validAt (n % INODES_PER_BLOCK)) = 0 := by
    rw [get32_set32_ne _ _ _ _ (sizeAt_ne_validAt _), hv]
  refine ⟨_, disk_write_of_lt _ hd hbn, ?_, ?_⟩
  · unfold slotValid inode_valid
    simp only [if_pos, hv']
    decide
  · unfold fs_stat
    by_cases hn : n ≥ fs.meta_data.inodes
    · simp [hd, hn]
    · have hr := @disk_read_of_lt fs.disk
          { d with data := fun b => if b = 1 + n / INODES_PER_BLOCK then
              set32 blk1 (sizeAt (n % INODES_PER_BLOCK)) 0 else d.data b }
          (1 + n / INODES_PER_BLOCK) hd hbn
      simp only [if_pos] at hr
      simp only [hd, hn, hr, inode_valid, hv']
      simp

/-- C4: for a mounted filesystem (a bitmap of `blocks` entries) and an inode
`n` whose non-zero pointers all lie in `[inode_blocks + 1, blocks)`,
`fs_remove` has defined behaviour, and when it returns true every block that
the valid inode `n` referenced before the call (each non-zero direct pointer,
the indirect block, each non-zero entry of the indirect block) is free
afterwards, the on-disk slot `n` is not valid, and `fs_stat` returns -1. -/
theorem C4_remove_liberates (fs : FileSystem) (d : Disk) (n : Nat) (bm : List Bool)
    (hbm : fs.free_blocks = some bm) (hlen : bm.length = fs.meta_data.blocks)
    (hptr : inodePointersIn d n (fs.meta_data.inode_blocks + 1) fs.meta_data.blocks) :
    ∃ ok fs' d', fs_remove fs d n = some (ok, fs', d') ∧
      (ok = true →
        (∃ bm', fs'.free_blocks = some bm' ∧ ∀ k, inodeRefs d n k → bm'[k]? = some true) ∧
        ¬ slotValid d' n ∧ fs_stat fs' d' n = -1) := by
  unfold fs_remove
  rw [hbm]
  dsimp only
  by_cases hd : fs.disk = none
  · exact ⟨false, fs, d, by simp [hd], by simp⟩
  rw [if_neg hd]
  by_cases hn : n ≥ fs.meta_data.inodes
  · exact ⟨false, fs, d, by simp [hn], by simp⟩
  rw [if_neg hn]
  cases hr : disk_read fs.disk d (1 + n / INODES_PER_BLOCK) with
  | none => exact ⟨false, fs, d, rfl, by simp⟩
  | some blk =>
    obtain ⟨_, hbn, rfl⟩ := disk_read_eq_some hr
    dsimp only
    by_cases hv : inode_valid (d.data (1 + n / INODES_PER_BLOCK)) (n % INODES_PER_BLOCK) = 0
    · exact ⟨false, fs, d, by simp [hv], by simp⟩
    rw [if_neg hv]
    obtain ⟨hpd, hpi⟩ := hptr
    have hdir0 : ∀ j, inode_direct (set32 (d.data (1 + n / INODES_PER_BLOCK))
        (validAt (n % INODES_PER_BLOCK)) 0) (n % INODES_PER_BLOCK) j
        = inode_direct (d.data (1 + n / INODES_PER_BLOCK)) (n % INODES_PER_BLOCK) j := by
      intro j
      unfold inode_direct
      rw [get32_set32_ne _ _ _ _ (directAt_ne_validAt _ _)]
    obtain ⟨bm1, blk1, h1, m1, hw1⟩ := remove_direct_spec (n % INODES_PER_BLOCK)
      (List.range POINTERS_PER_INODE) bm
      (set32 (d.data (1 + n / INODES_PER_BLOCK)) (validAt (n % INODES_PER_BLOCK)) 0)
      (fun j hj hne => by
        rw [hdir0 j] at hne ⊢
        rw [hlen]
        exact (hpd j (List.mem_range.1 hj) hne).2)
    have hv1 : get32 blk1 (validAt (n % INODES_PER_BLOCK)) = 0 := by
      rw [hw1 _ (fun j _ => (directAt_ne_validAt _ j).symm), get32_set32_same]
      rfl
    rw [h1]
    dsimp only
    have hdirect : ∀ k, k ≠ 0 → (∃ j, j < POINTERS_PER_INODE ∧
        inode_direct (d.data (1 + n / INODES_PER_BLOCK)) (n % INODES_PER_BLOCK) j = k) →
        bm1[k]? = some true := by
      rintro k hk ⟨j, hj, rfl⟩
      rw [m1.2]
      exact Or.inr ⟨by rw [hlen]; exact (hpd j hj hk).2, hk, j, List.mem_range.2 hj, hdir0 j⟩
    by_cases hi : inode_indirect (d.data (1 + n / INODES_PER_BLOCK)) (n % INODES_PER_BLOCK) ≠ 0
    · rw [if_pos hi]
      obtain ⟨⟨_, hilt⟩, hent⟩ := hpi hi
      have hilt1 : inode_indirect (d.data (1 + n / INODES_PER_BLOCK)) (n % INODES_PER_BLOCK)
          < bm1.length := by
        rw [m1.1, hlen]
        exact hilt
      rw [setFree_of_lt bm1 true hilt1]
      dsimp only
      have m2 := Marked.set true bm1 hilt1
      cases hr2 : disk_read fs.disk d
          (inode_indirect (d.data (1 + n / INODES_PER_BLOCK)) (n % INODES_PER_BLOCK)) with
      | none => exact ⟨false, _, d, rfl, by simp⟩
      | some iblk =>
        obtain ⟨_, hib, rfl⟩ := disk_read_eq_some hr2
        dsimp only
        cases h3 : forLoop (fun i bm => mark_pointer true
            (get32 (d.data (inode_indirect (d.data (1 + n / INODES_PER_BLOCK))
              (n % INODES_PER_BLOCK))) i) bm)
            (List.range POINTERS_PER_BLOCK)
            (bm1.set (inode_indirect (d.data (1 + n / INODES_PER_BLOCK))
              (n % INODES_PER_BLOCK)) true) with
        | ret r =>
          obtain ⟨_, j, hj, hne, hlt⟩ := mark_pointers_ret true _ _ _ _ h3
          rw [List.length_set, m1.1, hlen] at hlt
          exact absurd (hent hib j (List.mem_range.1 hj) hne).2 hlt
        | next bm3 =>
          dsimp only
          have m3 := mark_pointers_next true _ _ _ _ h3
          obtain ⟨d', hw, hnv, hst⟩ := remove_written_back fs d n blk1 bm3 hd hbn hv1
          rw [hw]
          refine ⟨true, _, d', rfl, fun _ => ⟨⟨bm3, rfl, ?_⟩, hnv, hst⟩⟩
          rintro k ⟨_, hk, (hj | rfl | ⟨_, _, j, hj, rfl⟩)⟩
          · rw [m3.2, m2.2]
            exact Or.inl (Or.inl (hdirect k hk hj))
          · rw [m3.2, m2.2]
            exact Or.inl (Or.inr ⟨hilt1, rfl⟩)
          · rw [m3.2]
            refine Or.inr ⟨?_, hk, j, List.mem_range.2 hj, rfl⟩
            rw [List.length_set, m1.1, hlen]
            exact (hent hib j hj hk).2
    · rw [if_neg hi]
      obtain ⟨d', hw, hnv, hst⟩ := remove_written_back fs d n blk1 bm1 hd hbn hv1
      rw [hw]
      refine ⟨true, _, d', rfl, fun _ => ⟨⟨bm1, rfl, ?_⟩, hnv, hst⟩⟩
      rintro k ⟨_, hk, (hj | hik | ⟨hne, _⟩)⟩
      · exact hdirect k hk hj
      · exact absurd hik (fun h => hi (h ▸ hk))
      · exact absurd hne hi

/-- Witness of C4: inode 0 of `fileDisk` references blocks 2, 3 and 4;
`fs_remove` returns true and leaves only blocks 0 and 1 in use. -/
theorem C4_remove_liberates_witness :
    (fs_remove fileFs fileDisk 0).map (fun r => (r.1, r.2.1.free_blocks)) =
      some (true, some [false, false, true, true, true, true, true, true, true, true]) ∧
    ∃ ok fs' d', fs_remove fileFs fileDisk 0 = some (ok, fs', d') ∧
      (ok = true →
        (∃ bm', fs'.free_blocks = some bm' ∧
          ∀ k, inodeRefs fileDisk 0 k → bm'[k]? = some true) ∧
        ¬ slotValid d' 0 ∧ fs_stat fs' d' 0 = -1) :=
  ⟨by decide!, C4_remove_liberates fileFs fileDisk 0
    [false, false, false, false, false, true, true, true, true, true]
    (by decide!) (by decide!) (by decide!)⟩

/-! ## `fs_create` -/

/-- A scan over `s, s + 1, ..` leaves through the `return` of the first index
whose iteration returns. -/
theorem forLoop_range'_first {ρ : Type} (body : Nat → Unit → Step Unit ρ) (n : Nat) (r : ρ)
    (hret : body n () = Step.ret r) :
    ∀ c s, s ≤ n → n < s + c → (∀ m, s ≤ m → m < n → body m () = Step.next ()) →
      forLoop body (List.range' s c) () = Step.ret r := by
  intro c
  induction c with
  | zero =>
    intro s h1 h2 _
    omega
  | succ c ih =>
    intro s h1 h2 hprev
    rw [List.range'_succ]
    by_cases hs : s = n
    · subst hs
      exact forLoop_cons_ret _ hret
    · rw [forLoop_cons_next _ (hprev s (Nat.le_refl s) (by omega))]
      exact ih (s + 1) (by omega) (by omega) (fun m hm1 hm2 => hprev m (by omega) hm2)

theorem create_step_valid (fs : FileSystem) (d : Disk) (n : Nat) (hd : fs.disk ≠ none)
    (hbn : 1 + n / INODES_PER_BLOCK < d.blocks) (hv : slotValid d n) :
    create_step fs d n () = Step.next () := by
  unfold create_step
  dsimp only
  rw [disk_read_of_lt hd hbn]
  unfold slotValid at hv
  simp only [if_pos hv]

theorem create_step_free (fs : FileSystem) (d : Disk) (n : Nat) (hd : fs.disk ≠ none)
    (hbn : 1 + n / INODES_PER_BLOCK < d.blocks) (hv : ¬ slotValid d n) :
    create_step fs d n () = Step.ret (Int.ofNat n,
      { d with data := fun b =>
          if b = 1 + n / INODES_PER_BLOCK then
            set32 (d.data (1 + n / INODES_PER_BLOCK)) (validAt (n % INODES_PER_BLOCK)) 1
          else d.data b }) := by
  unfold create_step
  dsimp only
  rw [disk_read_of_lt hd hbn]
  unfold slotValid at hv
  simp only [if_neg hv, disk_write_of_lt _ hd hbn]

/-- The call `fs_create` takes the first inode number whose slot is not valid:
it returns that number and writes `valid = 1` into the slot, changing no
other word of the device. -/
theorem fs_create_first (fs : FileSystem) (d : Disk) (n : Nat) (hd : fs.disk ≠ none)
    (hn : n < fs.meta_data.inodes)
    (hdev : ∀ m, m ≤ n → 1 + m / INODES_PER_BLOCK < d.blocks)
    (hprev : ∀ m, m < n → slotValid d m) (hfree : ¬ slotValid d n) :
    fs_create fs d = (Int.ofNat n,
      { d with data := fun b =>
          if b = 1 + n / INODES_PER_BLOCK then
            set32 (d.data (1 + n / INODES_PER_BLOCK)) (validAt (n % INODES_PER_BLOCK)) 1
          else d.data b }) := by
  unfold fs_create
  rw [List.range_eq_range', forLoop_range'_first (create_step fs d) n _
    (create_step_free fs d n hd (hdev n (Nat.le_refl n)) hfree) fs.meta_data.inodes 0
    (Nat.zero_le n) (by omega)
    (fun m _ hm => create_step_valid fs d m hd (hdev m (Nat.le_of_lt hm)) (hprev m hm))]

/-- The call `fs_create` returns -1 and leaves the device alone when every
slot is valid. -/
theorem fs_create_full (fs : FileSystem) (d : Disk) (hd : fs.disk ≠ none)
    (hdev : ∀ m, m < fs.meta_data.inodes → 1 + m / INODES_PER_BLOCK < d.blocks)
    (hall : ∀ m, m < fs.meta_data.inodes → slotValid d m) :
    fs_create fs d = (-1, d) := by
  unfold fs_create
  rw [forLoop_skip (create_step fs d) _ ()
    (fun m hm => create_step_valid fs d m hd (hdev m (List.mem_range.1 hm))
      (hall m (List.mem_range.1 hm)))]

theorem validAt_inj {i j : Nat} (h : validAt i = validAt j) : i = j := by
  unfold validAt at h
  omega

/-- Writing `valid = 1` into the slot of inode `n` makes `n` valid and changes
the validity of no other inode. -/
theorem slotValid_after_create (d : Disk) (n m : Nat) :
    slotValid
      { d with data := fun b =>
          if b = 1 + n / INODES_PER_BLOCK then
            set32 (d.data (1 + n / INODES_PER_BLOCK)) (validAt (n % INODES_PER_BLOCK)) 1
          else d.data b } m ↔ (m = n ∨ slotValid d m) := by
  unfold slotValid inode_valid
  by_cases hb : 1 + m / INODES_PER_BLOCK = 1 + n / INODES_PER_BLOCK
  · simp only [if_pos hb]
    by_cases hs : m % INODES_PER_BLOCK = n % INODES_PER_BLOCK
    · have hmn : m = n := by
        unfold INODES_PER_BLOCK at hb hs
        omega
      subst hmn
      rw [get32_set32_same]
      simp [U32_MOD]
    · rw [get32_set32_ne _ _ _ _ (fun h => hs (validAt_inj h)), hb]
      have hmn : m ≠ n := fun h => hs (by rw [h])
      simp [hmn]
  · simp only [if_neg hb]
    have hmn : m ≠ n := fun h => hb (by rw [h])
    simp [hmn]

/-- On an image with no valid inode, `k` calls of `fs_create` make exactly
the inodes `0 .. k - 1` valid. -/
theorem create_many_spec (fs : FileSystem) (hd : fs.disk ≠ none) (k : Nat) :
    ∀ (d : Disk) (lo : Nat), lo + k ≤ fs.meta_data.inodes →
      (∀ m, m < fs.meta_data.inodes → 1 + m / INODES_PER_BLOCK < d.blocks) →
      (∀ m, m < fs.meta_data.inodes → (slotValid d m ↔ m < lo)) →
      (create_many fs k d).blocks = d.blocks ∧
      ∀ m, m < fs.meta_data.inodes → (slotValid (create_many fs k d) m ↔ m < lo + k) := by
  induction k with
  | zero =>
    intro d lo _ _ hv
    exact ⟨rfl, hv⟩
  | succ k ih =>
    intro d lo hk hdev hv
    have hc := fs_create_first fs d lo hd (by omega) (fun m hm => hdev m (by omega))
      (fun m hm => (hv m (by omega)).2 hm) (fun h => Nat.lt_irrefl lo ((hv lo (by omega)).1 h))
    obtain ⟨hb, hs⟩ := ih (fs_create fs d).2 (lo + 1) (by omega)
      (by rw [hc]; exact hdev)
      (fun m hm => by
        rw [hc]
        show slotValid _ m ↔ _
        rw [slotValid_after_create d lo m, hv m hm]
        omega)
    refine ⟨?_, fun m hm => ?_⟩
    · show (create_many fs k (fs_create fs d).2).blocks = d.blocks
      rw [hb, hc]
    · show slotValid (create_many fs k (fs_create fs d).2) m ↔ _
      rw [hs m hm]
      omega


/-- C9, amended: for a mounted filesystem with a working device on which the
slot of every inode number `n < inodes` lies in a block of the device (block
`1 + n / 128` is below the device's block count, so that every read of the
scan succeeds), `fs_create` returns the smallest inode number `n < inodes`
whose on-disk slot is not valid (and makes it valid), returns -1 if and only
if every one of the `inodes` slots is valid, and so, from an image with no
valid inode, the creates return `0, 1, ..` and the create after `inodes` of
them returns -1. -/
theorem C9_create_first_fit (fs : FileSystem) (d : Disk) (hd : fs.disk ≠ none)
    (hdev : ∀ m, m < fs.meta_data.inodes → 1 + m / INODES_PER_BLOCK < d.blocks) :
    (∀ n, n < fs.meta_data.inodes → ¬ slotValid d n → (∀ m, m < n → slotValid d m) →
      (fs_create fs d).1 = (n : Int) ∧ slotValid (fs_create fs d).2 n) ∧
    ((fs_create fs d).1 = -1 ↔ ∀ n, n < fs.meta_data.inodes → slotValid d n) ∧
    ((∀ n, n < fs.meta_data.inodes → ¬ slotValid d n) →
      (∀ k, k < fs.meta_data.inodes →
        (fs_create fs (create_many fs k d)).1 = (k : Int)) ∧
      (fs_create fs (create_many fs fs.meta_data.inodes d)).1 = -1) := by
  have hfirst : ∀ n, n < fs.meta_data.inodes → ¬ slotValid d n →
      (∀ m, m < n → slotValid d m) →
      (fs_create fs d).1 = (n : Int) ∧ slotValid (fs_create fs d).2 n := by
    intro n hn hfree hprev
    rw [fs_create_first fs d n hd hn (fun m hm => hdev m (by omega)) hprev hfree]
    exact ⟨rfl, (slotValid_after_create d n n).2 (Or.inl rfl)⟩
  refine ⟨hfirst, ⟨fun hret => ?_, fun hall => ?_⟩, fun hfresh => ⟨fun k hk => ?_, ?_⟩⟩
  · by_contra hex
    have hex' : ∃ n, n < fs.meta_data.inodes ∧ ¬ slotValid d n := by
      by_contra hno
      exact hex (fun n hn => by
        by_contra hv
        exact hno ⟨n, hn, hv⟩)
    obtain ⟨hn, hfree⟩ := Nat.find_spec hex'
    have hc := (hfirst (Nat.find hex') hn hfree (fun m hm => by
      by_contra hv
      exact Nat.find_min hex' hm ⟨by omega, hv⟩)).1
    rw [hret] at hc
    omega
  · rw [fs_create_full fs d hd hdev hall]
  · obtain ⟨hb, hs⟩ := create_many_spec fs hd k d 0 (by omega) hdev
      (fun m hm => ⟨fun hv => absurd hv (hfresh m hm), fun h => absurd h (Nat.not_lt_zero m)⟩)
    rw [fs_create_first fs (create_many fs k d) k hd hk
      (fun m hm => by rw [hb]; exact hdev m (by omega))
      (fun m hm => (hs m (by omega)).2 (by omega))
      (fun hv => by have := (hs k hk).1 hv; omega)]
    rfl
  · obtain ⟨hb, hs⟩ := create_many_spec fs hd fs.meta_data.inodes d 0 (by omega) hdev
      (fun m hm => ⟨fun hv => absurd hv (hfresh m hm), fun h => absurd h (Nat.not_lt_zero m)⟩)
    rw [fs_create_full fs (create_many fs fs.meta_data.inodes d) hd
      (fun m hm => by rw [hb]; exact hdev m hm)
      (fun m hm => (hs m hm).2 (by omega))]

/-- Witness of C9: on the fresh 10-block image, whose 128 inode slots all lie
in block 1, the first create returns 0 and the create after 128 creates
returns -1. -/
theorem C9_create_first_fit_witness :
    freshFs.meta_data.inodes = 128 ∧
    (∀ m, m < freshFs.meta_data.inodes → 1 + m / INODES_PER_BLOCK < freshDisk.blocks) ∧
    (fs_create freshFs freshDisk).1 = 0 ∧
    (fs_create freshFs (create_many freshFs 128 freshDisk)).1 = -1 :=
  have hdev : ∀ m, m < freshFs.meta_data.inodes →
      1 + m / INODES_PER_BLOCK < freshDisk.blocks := by decide!
  have h := C9_create_first_fit freshFs freshDisk (by decide) hdev
  ⟨by decide, hdev,
    (h.1 0 (by decide) (by decide) (fun m hm => absurd hm (Nat.not_lt_zero m))).1,
    (h.2.2 (by decide!)).2⟩

/-- Counterexample to C9 as stated: `fs_mount` accepts the 2-block image
`crampedDisk`, whose superblock has `blocks = 2`, `inode_blocks = 1` (so
`inode_blocks < blocks`) and `inodes = 129`, and whose 128 slots of block 1
are valid. The scan of `fs_create` passes inodes `0 .. 127` and fails to read
block 2 for inode 128, so the call returns -1, although inode 128 is below
`inodes` and its slot is not valid: -1 is returned without every slot being
valid, and the smallest inode number whose slot is not valid is not returned. -/
theorem C9_create_first_fit_counterexample :
    fs_mount fs0 (some 0) crampedDisk = some (true, crampedFs) ∧
    crampedFs.disk ≠ none ∧
    crampedFs.meta_data.inode_blocks < crampedFs.meta_data.blocks ∧
    crampedFs.meta_data.inodes = 129 ∧
    (∀ m, m < 128 → slotValid crampedDisk m) ∧
    ¬ slotValid crampedDisk 128 ∧
    (fs_create crampedFs crampedDisk).1 = -1 ∧
    ¬ ((fs_create crampedFs crampedDisk).1 = -1 ↔
      ∀ n, n < crampedFs.meta_data.inodes → slotValid crampedDisk n) := by
  have hc : (fs_create crampedFs crampedDisk).1 = -1 := by decide!
  have hi : crampedFs.meta_data.inodes = 129 := by decide!
  have hv : ¬ slotValid crampedDisk 128 := by decide
  refine ⟨by decide!, by decide!, by decide!, hi, by decide!, hv, hc, fun h => ?_⟩
  exact hv (h.1 hc 128 (by rw [hi]; decide))

/-! ## `fs_write` terminates -/

theorem write_direct_alloc_next {fs : FileSystem} {idx bi : Nat} {s s1 : WriteState}
    (h : write_direct_alloc fs idx bi s = Step.next s1) :
    s1.bytes_written = s.bytes_written ∧ s1.current_offset = s.current_offset := by
  unfold write_direct_alloc at h
  split at h
  · split at h
    · simp at h
    · simp at h
    · split at h
      · simp at h
      · dsimp only at h
        split at h
        · simp at h
        · simp only [Step.next.injEq] at h
          subst h
          exact ⟨rfl, rfl⟩
  · simp only [Step.next.injEq] at h
    subst h
    exact ⟨rfl, rfl⟩

theorem write_data_next {fs : FileSystem} {data : Buffer} {length p : Nat} {s s' : WriteState}
    (h : write_data fs data length p s = Step.next s') (hlt : s.bytes_written < length) :
    s.bytes_written < s'.bytes_written ∧ s'.bytes_written ≤ length := by
  unfold write_data at h
  dsimp only at h
  split at h
  · simp at h
  · simp only [Step.next.injEq] at h
    subst h
    dsimp only
    have hmod : s.current_offset % BLOCK_SIZE < BLOCK_SIZE := Nat.mod_lt _ (by decide)
    split <;> omega

theorem write_indirect_not_next {fs : FileSystem} {idx : Nat} {data : Buffer} {length : Nat}
    {s s' : WriteState} : write_indirect fs idx data length s ≠ Step.next s' := by
  intro h
  unfold write_indirect at h
  dsimp only at h
  split at h
  · simp at h
  · split at h
    · simp at h
    · split at h
      · simp at h
      · rw [if_pos (by decide)] at h
        simp at h

/-- An iteration of the loop of `fs_write` that goes on has written at least
one byte and not more than asked. -/
theorem write_step_next {fs : FileSystem} {idx : Nat} {data : Buffer} {length : Nat}
    {s s' : WriteState} (h : write_step fs idx data length s = Step.next s')
    (hlt : s.bytes_written < length) :
    s.bytes_written < s'.bytes_written ∧ s'.bytes_written ≤ length := by
  unfold write_step at h
  dsimp only at h
  split at h
  · split at h
    · split at h
      · simp at h
      · rename_i s1 h1
        obtain ⟨hb, _⟩ := write_direct_alloc_next h1
        have := write_data_next h (by rw [hb]; exact hlt)
        rw [hb] at this
        exact this
    · simp at h
  · exact absurd h write_indirect_not_next

/-- The loop of `fs_write` ends within `length - bytes_written + 1` rounds. -/
theorem write_loop_fuel (fs : FileSystem) (idx : Nat) (data : Buffer)
    (length end_offset end_block : Nat) :
    ∀ (fuel : Nat) (s : WriteState), s.bytes_written ≤ length →
      length - s.bytes_written < fuel →
      write_loop fs idx data length end_offset end_block fuel s ≠ Outcome.nofuel := by
  intro fuel
  induction fuel with
  | zero =>
    intro s _ h
    omega
  | succ fuel ih =>
    intro s hle hfuel h
    unfold write_loop at h
    split at h
    · rename_i hcond
      split at h
      · rename_i s' hstep
        obtain ⟨h1, h2⟩ := write_step_next hstep hcond.2
        exact ih s' h2 (by omega) h
      · simp at h
      · simp at h
    · simp at h

/-- The function `fs_write` never uses up the fuel of its loop: it returns, or
stops at an access outside an array. -/
theorem fs_write_ne_nofuel (fs : FileSystem) (d : Disk) (inode_number : Nat) (data : Buffer)
    (length offset : Nat) : fs_write fs d inode_number data length offset ≠ Outcome.nofuel := by
  intro h
  unfold fs_write at h
  split at h
  · simp at h
  · split at h
    · simp at h
    · split at h
      · simp at h
      · dsimp only at h
        split at h
        · simp at h
        · split at h
          · simp at h
          · split at h
            · simp at h
            · simp at h
            · rename_i hrun
              unfold fs_write_run at hrun
              exact write_loop_fuel _ _ _ _ _ _ _ _ (Nat.zero_le _) (by simp) hrun

/-! ## `fs_write` does not write the inode block back

The scenario of the specification: the fresh 10-block image, one create, then
`fs_write(fs, 0, "hello", 5, 0)`. -/

/-- In that scenario the loop of `fs_write` records block 2 and the size 5 in
its local copy of the inode block, while slot 0 of block 1 of the device keeps
`direct[0] = 0` and `size = 0`: the function returns without a `disk_write` of
the inode block. -/
theorem hello_write_local_copy :
    ∃ s, fs_write_run freshFs
        [false, false, true, true, true, true, true, true, true, true]
        createdDisk (createdDisk.data 1) 0 hello 5 0 = Outcome.ret (5, s) ∧
      inode_direct s.inode_block 0 0 = 2 ∧ inode_size s.inode_block 0 = 5 ∧
      inode_direct (s.d.data 1) 0 0 = 0 ∧ inode_size (s.d.data 1) 0 = 0 :=
  ⟨_, rfl, by decide, by decide, by decide, by decide⟩

/-- C1, at the failing input: on the freshly formatted and mounted 10-block
image, after `fs_create` returned 0, `fs_write(0, "hello", 5, 0)` returns 5 and
stores the five bytes in block 2, yet the `fs_read(0, out, 5, 0)` that follows
returns 0 and leaves `out` untouched, where the round trip requires 5 and
`"hello"`: the on-disk inode still has size 0. -/
theorem C1_write_then_read_returns_nothing :
    (fs_create freshFs freshDisk).1 = 0 ∧
    helloWrite = Outcome.ret (5, writtenFs, writtenDisk) ∧
    (∀ i, i < 5 → writtenDisk.data 2 i = hello i) ∧
    ∀ fuel out, fs_read (fuel + 1) writtenFs writtenDisk 0 out 5 0 = Outcome.ret (0, out) :=
  ⟨by decide, rfl, by decide, fun _ _ => rfl⟩

/-- C2, at the failing input: in the same scenario `fs_stat(0)` is 0 before
the write, the write returns 5, and `fs_stat(0)` is still 0 afterwards, where
size monotonicity requires `max(0, 0 + 5) = 5`. -/
theorem C2_write_leaves_size :
    fs_stat freshFs createdDisk 0 = 0 ∧
    helloWrite = Outcome.ret (5, writtenFs, writtenDisk) ∧
    fs_stat writtenFs writtenDisk 0 = 0 :=
  ⟨by decide, rfl, by decide⟩

/-- C3, at the failing input: after the sequence create, write of the same
scenario the bitmap marks block 2 as in use, but block 2 is not in
`[0 .. inode_blocks]` and no valid on-disk inode references it. -/
theorem C3_bitmap_marks_unreferenced_block :
    helloWrite = Outcome.ret (5, writtenFs, writtenDisk) ∧
    writtenFs.free_blocks =
      some [false, false, false, true, true, true, true, true, true, true] ∧
    writtenFs.meta_data.inode_blocks = 1 ∧
    ¬ Referenced writtenFs.meta_data writtenDisk 2 :=
  ⟨rfl, by decide, by decide, by decide!⟩

/-! ## `fs_create` zeroes the size after its `disk_write` -/

/-- The create that takes inode `n` leaves the size field of its slot as it
finds it on the device: the assignment `size = 0` comes after the `disk_write`,
on the local copy of the block. -/
theorem fs_create_keeps_size (fs : FileSystem) (d : Disk) (n : Nat) (hd : fs.disk ≠ none)
    (hn : n < fs.meta_data.inodes)
    (hdev : ∀ m, m ≤ n → 1 + m / INODES_PER_BLOCK < d.blocks)
    (hprev : ∀ m, m < n → slotValid d m) (hfree : ¬ slotValid d n) :
    inode_size ((fs_create fs d).2.data (1 + n / INODES_PER_BLOCK)) (n % INODES_PER_BLOCK) =
      inode_size (d.data (1 + n / INODES_PER_BLOCK)) (n % INODES_PER_BLOCK) := by
  rw [fs_create_first fs d n hd hn hdev hprev hfree]
  unfold inode_size
  simp only [if_pos]
  rw [get32_set32_ne _ _ _ _ (sizeAt_ne_validAt _).symm]

/-- C10, at the failing input: on a mounted 10-block image whose free slot 0
holds the size 7, `fs_create` returns 0 and makes inode 0 valid on the device,
but the on-disk size is still 7 and `fs_stat(0)` returns 7, where the claim
requires size 0. -/
theorem C10_create_keeps_stale_size :
    (fs_mount fs0 (some 0) staleDisk).map Prod.fst = some true ∧
    ¬ slotValid staleDisk 0 ∧ inode_size (staleDisk.data 1) 0 = 7 ∧
    (fs_create staleFs staleDisk).1 = 0 ∧
    slotValid (fs_create staleFs staleDisk).2 0 ∧
    inode_size ((fs_create staleFs staleDisk).2.data 1) 0 = 7 ∧
    fs_stat staleFs (fs_create staleFs staleDisk).2 0 = 7 :=
  ⟨by decide, by decide, by decide, by decide, by decide, by decide, by decide⟩

/-! ## `fs_remove` leaves the indirect pointer in the inode -/

/-- C11, at the failing input: inode 0 of `fileDisk` is valid with
`indirect = 3`; `fs_remove` returns true and writes back `valid = 0`,
`size = 0` and five zero direct pointers, but the on-disk `indirect` field is
still 3, where the claim requires 0: the function frees the indirect block
through a local copy of the field and never assigns the field. -/
theorem C11_remove_keeps_indirect :
    slotValid fileDisk 0 ∧ inode_indirect (fileDisk.data 1) 0 = 3 ∧
    (fs_remove fileFs fileDisk 0).map (fun r =>
        (r.1, inode_valid (r.2.2.data 1) 0, inode_size (r.2.2.data 1) 0,
          (List.range 5).map (inode_direct (r.2.2.data 1) 0),
          inode_indirect (r.2.2.data 1) 0)) =
      some (true, 0, 0, [0, 0, 0, 0, 0], 3) :=
  ⟨by decide, by decide, by decide!⟩

/-! ## `fs_stat` -/

/-- C13, at the failing input: inode 0 of `sizedDisk` is valid with on-disk
size 5 and `direct[0] = 2`; `fs_read(0, out, 100, 0)` returns 100 and copies
the first 100 bytes of block 2, where the claim requires at most 5: the byte
count of an iteration is clamped to the block and to `length`, not to the file
size. -/
theorem C13_read_past_size :
    slotValid sizedDisk 0 ∧ inode_size (sizedDisk.data 1) 0 = 5 ∧
    ∀ fuel out,
      fs_read (fuel + 2) sizedFs sizedDisk 0 out 100 0 =
        Outcome.ret (100, memcpy out 0 (sizedDisk.data 2) 0 100) :=
  ⟨by decide, by decide, fun _ _ => by with_unfolding_all rfl⟩

/-- C19, at the failing input: inode 0 of `fileDisk` is valid with size 24576
(six blocks), `indirect = 3` and entry 0 of block 3 equal to 4; a read of one
byte at offset 20480 (file block 5) passes the guard
`block_index > POINTERS_PER_INODE` and indexes `direct[5]`, outside the
five-entry array, where the claim requires the byte to come from entry 0 of
the indirect block; and in every state the first loop of `fs_read` does so
when its offset is in file block 5. -/
theorem C19_read_indexes_direct_5 :
    slotValid fileDisk 0 ∧ inode_size (fileDisk.data 1) 0 = 24576 ∧
    inode_indirect (fileDisk.data 1) 0 = 3 ∧ get32 (fileDisk.data 3) 0 = 4 ∧
    isUndef (fs_read 1 fileFs fileDisk 0 zeroBlock 1 20480) = true ∧
    ∀ (fs : FileSystem) (d : Disk) (blk : Block) (idx length fuel : Nat) (s : ReadState),
      s.current_offset < inode_size blk idx → s.bytes_read < length →
      s.current_offset / BLOCK_SIZE = POINTERS_PER_INODE →
      read_direct_loop fs d blk idx length (fuel + 1) s = some LoopEnd.undef := by
  refine ⟨by decide, by decide, by decide, by decide, by decide!, ?_⟩
  intro fs d blk idx length fuel s h1 h2 h5
  unfold read_direct_loop
  rw [if_pos ⟨h1, h2⟩]
  dsimp only
  rw [h5, if_neg (Nat.lt_irrefl _), if_neg (Nat.lt_irrefl _)]

/-! ## The superblock invariant after `fs_format` -/

/-- C17 (as amended, for devices of at least 2 and at most 2^32 - 128
blocks): when `fs_format` returns true the superblock of block 0 satisfies
`inode_blocks < blocks` and `inodes = inode_blocks * 128`. -/
theorem C17_format_invariant (fs : FileSystem) (disk : Option Nat) (d : Disk)
    (h2 : 2 ≤ d.blocks) (hsize : d.blocks ≤ 4294967168)
    (h : (fs_format fs disk d).1 = true) :
    (Block_super ((fs_format fs disk d).2.data 0)).inode_blocks <
      (Block_super ((fs_format fs disk d).2.data 0)).blocks ∧
    (Block_super ((fs_format fs disk d).2.data 0)).inodes =
      (Block_super ((fs_format fs disk d).2.data 0)).inode_blocks * 128 := by
  obtain ⟨hd, hm, hb⟩ := fs_format_true_pre fs disk d h
  obtain ⟨d', hf, _, h0, _⟩ := fs_format_spec fs disk d hd hm hb
  rw [hf]
  show (Block_super (d'.data 0)).inode_blocks < (Block_super (d'.data 0)).blocks ∧
    (Block_super (d'.data 0)).inodes = (Block_super (d'.data 0)).inode_blocks * 128
  rw [h0, format_super_small d.blocks hsize]
  dsimp only
  constructor
  · omega
  · trivial
/-- Witness of C17: the 10-block device. -/
theorem C17_format_invariant_witness :
    (fs_format fs0 (some 0) (blankDisk 10)).1 = true ∧
    (Block_super (freshDisk.data 0)).inode_blocks < (Block_super (freshDisk.data 0)).blocks ∧
    (Block_super (freshDisk.data 0)).inodes =
      (Block_super (freshDisk.data 0)).inode_blocks * 128 :=
  ⟨by decide, C17_format_invariant fs0 (some 0) (blankDisk 10) (by decide) (by decide)
    (by decide)⟩

/-- Counterexample to C17 as stated: on a device of 1 block `fs_format` returns
true and stores `blocks = 1` and `inode_blocks = ceil(1 / 128) = 1`, so
`inode_blocks < blocks` fails; and on a device of 2^32 - 1 blocks it returns
true and stores `inode_blocks = 2^25` with `inodes = 0`. -/
theorem C17_format_invariant_counterexample :
    ((fs_format fs0 (some 0) (blankDisk 1)).1 = true ∧
      (Block_super ((fs_format fs0 (some 0) (blankDisk 1)).2.data 0)).blocks = 1 ∧
      (Block_super ((fs_format fs0 (some 0) (blankDisk 1)).2.data 0)).inode_blocks = 1) ∧
    ((fs_format fs0 (some 0) (blankDisk 4294967295)).1 = true ∧
      (Block_super ((fs_format fs0 (some 0) (blankDisk 4294967295)).2.data 0)).inode_blocks
        = 33554432 ∧
      (Block_super ((fs_format fs0 (some 0) (blankDisk 4294967295)).2.data 0)).inodes = 0) := by
  refine ⟨⟨by decide, by decide, by decide⟩, ?_⟩
  obtain ⟨d', hf, _, h0, _⟩ := fs_format_spec fs0 (some 0) (blankDisk 4294967295)
    (by simp) (by simp [fs0]) (by decide)
  obtain ⟨_, _, h2, h3⟩ := format_super_fields 4294967295
  rw [hf]
  refine ⟨rfl, ?_, ?_⟩
  · show get32 (d'.data 0) 2 = _
    rw [h0]
    exact h2
  · show get32 (d'.data 0) 3 = _
    rw [h0]
    exact h3

/-! ## The direct/indirect split of `fs_write` -/

/-- C18, at the failing input: on the fresh 10-block image after one create,
a write of one byte at offset 20480 (file block 5) indexes `direct[5]`, outside
the five-entry array; and in every state an iteration of `fs_write` with
`5 <= block_index < 1024` does so, because the branch is chosen by
`block_index < POINTERS_PER_BLOCK`.  The claim requires `direct[]` to be
accessed only for `block_index < 5`. -/
theorem C18_write_indexes_direct_past_5 :
    isUndef (fs_write freshFs createdDisk 0 hello 1 20480) = true ∧
    ∀ (fs : FileSystem) (idx : Nat) (data : Buffer) (length : Nat) (s : WriteState),
      POINTERS_PER_INODE ≤ s.current_block → s.current_block < POINTERS_PER_BLOCK →
      write_step fs idx data length s = Step.ret none := by
  refine ⟨by decide!, fun fs idx data length s h5 h1024 => ?_⟩
  unfold write_step
  simp only [if_pos h1024, if_neg (Nat.not_lt.2 h5)]

/-- C15, at the failing input: the fresh 10-block image after one create has
eight free data blocks and a write of 4106 bytes at offset 0 returns 4106, but
a write of one byte at offset 4194304 (file block 1024, inside the capacity of
`(5 + 1024) * 4096` bytes, needing two blocks) returns -1, where the claim
requires 1: the `else` branch leaves at `if (disk_read(...)) return -1`, whose
test is true for a successful read. -/
theorem C15_write_in_indirect_range_fails :
    freshFs.free_blocks =
      some [false, false, true, true, true, true, true, true, true, true] ∧
    returned (fs_write freshFs createdDisk 0 bufA 4106 0) = some 4106 ∧
    4194304 + 1 ≤ (5 + 1024) * 4096 ∧
    returned (fs_write freshFs createdDisk 0 bufA 1 4194304) = some (-1) :=
  ⟨by decide, by decide!, by decide, by decide!⟩

/-! ## A write with no free data block -/

/-- With no free entry in the scanned range the allocation scan of `fs_write`
ends without a `break`. -/
theorem alloc_scan_none (fs : FileSystem) (bm : List Bool)
    (hfull : ∀ i, (fs.meta_data.inode_blocks + 1) % U32_MOD ≤ i → i < fs.meta_data.blocks →
      bm[i]? = some false) :
    alloc_scan fs bm = some none := by
  unfold alloc_scan
  dsimp only
  rw [forLoop_skip _ _ () (fun i hi => by
    rw [List.mem_range'] at hi
    obtain ⟨c, hc, rfl⟩ := hi
    rw [hfull _ (by omega) (by omega)])]

/-- The `else` branch of the loop of `fs_write` leaves with -1 and an
unchanged state when the inode has an indirect block, and when it has none and
no data block is free. -/
theorem write_indirect_fails (fs : FileSystem) (idx : Nat) (data : Buffer) (length : Nat)
    (s : WriteState)
    (h : inode_indirect s.inode_block idx ≠ 0 ∨ alloc_scan fs s.free_blocks = some none) :
    write_indirect fs idx data length s = Step.ret (some (-1, s)) := by
  unfold write_indirect write_indirect_alloc
  dsimp only
  by_cases hi : inode_indirect s.inode_block idx = 0
  · rw [if_pos hi, h.resolve_left (fun hne => hne hi)]
  · rw [if_neg hi]
    dsimp only
    by_cases hidx : (s.current_block - POINTERS_PER_INODE) % U32_MOD ≥ POINTERS_PER_BLOCK
    · rw [if_pos hidx]
    · rw [if_neg hidx]
      cases disk_read fs.disk s.d (inode_indirect s.inode_block idx) with
      | none => rfl
      | some blk =>
        dsimp only
        rw [if_pos (by decide)]

/-- With no free data block, a write of `L > 0` bytes whose first file block is
a direct block with `direct[i] = 0`, or any file block from 1024 on, returns -1
and leaves the filesystem record and the device as they were. -/
theorem fs_write_no_free_block (fs : FileSystem) (d : Disk) (n : Nat) (data : Buffer)
    (L O : Nat) (bm : List Bool)
    (hd : fs.disk ≠ none) (hfb : fs.free_blocks = some bm)
    (hn : n < fs.meta_data.inodes) (hdev : 1 + n / INODES_PER_BLOCK < d.blocks)
    (hv : slotValid d n)
    (hfull : ∀ i, (fs.meta_data.inode_blocks + 1) % U32_MOD ≤ i → i < fs.meta_data.blocks →
      bm[i]? = some false)
    (hL : 0 < L) (hsize : O + L + BLOCK_SIZE ≤ SIZE_MOD)
    (hblock : (O / BLOCK_SIZE < POINTERS_PER_INODE ∧
        inode_direct (d.data (1 + n / INODES_PER_BLOCK)) (n % INODES_PER_BLOCK)
          (O / BLOCK_SIZE) = 0) ∨
      POINTERS_PER_BLOCK ≤ O / BLOCK_SIZE) :
    fs_write fs d n data L O = Outcome.ret (-1, fs, d) := by
  have hv0 : ¬ inode_valid (d.data (1 + n / INODES_PER_BLOCK)) (n % INODES_PER_BLOCK) = 0 := by
    unfold slotValid at hv
    rw [hv]
    decide
  have hfs : ({ fs with free_blocks := some bm } : FileSystem) = fs := by
    cases fs
    simp only at hfb
    subst hfb
    rfl
  have hcond : O / BLOCK_SIZE <
      ((O + L) % SIZE_MOD + BLOCK_SIZE - 1) % SIZE_MOD / BLOCK_SIZE ∧ 0 < L := by
    refine ⟨?_, hL⟩
    unfold BLOCK_SIZE SIZE_MOD at hsize ⊢
    omega
  obtain ⟨k, rfl⟩ : ∃ k, L = k + 1 := ⟨L - 1, by omega⟩
  have hstep : write_step fs (n % INODES_PER_BLOCK) data (k + 1)
      { free_blocks := bm, inode_block := d.data (1 + n / INODES_PER_BLOCK), d := d,
        current_offset := O, current_block := O / BLOCK_SIZE, bytes_written := 0 } =
      Step.ret (some (-1,
        { free_blocks := bm, inode_block := d.data (1 + n / INODES_PER_BLOCK), d := d,
          current_offset := O, current_block := O / BLOCK_SIZE, bytes_written := 0 })) := by
    unfold write_step
    dsimp only
    rcases hblock with ⟨h5, hzero⟩ | h1024
    · have hlt : O / BLOCK_SIZE < POINTERS_PER_BLOCK := by
        unfold POINTERS_PER_INODE at h5
        unfold POINTERS_PER_BLOCK
        omega
      rw [if_pos hlt, if_pos h5]
      unfold write_direct_alloc
      dsimp only
      rw [if_pos hzero, alloc_scan_none fs bm hfull]
    · rw [if_neg (Nat.not_lt.2 h1024)]
      apply write_indirect_fails
      by_cases hi : inode_indirect (d.data (1 + n / INODES_PER_BLOCK))
          (n % INODES_PER_BLOCK) = 0
      · exact Or.inr (alloc_scan_none fs bm hfull)
      · exact Or.inl hi
  unfold fs_write
  rw [hfb]
  dsimp only
  rw [if_neg hd, if_neg (by omega), disk_read_of_lt hd hdev]
  dsimp only
  rw [if_neg hv0]
  unfold fs_write_run
  dsimp only
  unfold write_loop
  rw [if_pos hcond, hstep]
  dsimp only
  rw [hfs]
/-- C16, at the failing input: on `fullDisk` no data block is free, inode 0 is
valid with `indirect = 3`, and entry 0 of the indirect block is 0, so file
block 5 is unallocated; a write of one byte at offset 20480 does not return
-1: it indexes `direct[5]`, outside the five-entry array. -/
theorem C16_full_bitmap_write_is_undefined :
    fullFs.free_blocks = some [false, false, false, false] ∧
    slotValid fullDisk 0 ∧ inode_indirect (fullDisk.data 1) 0 = 3 ∧
    get32 (fullDisk.data 3) 0 = 0 ∧
    isUndef (fs_write fullFs fullDisk 0 hello 1 20480) = true :=
  ⟨by decide!, by decide, by decide, by decide, by decide!⟩

/-! ## A write inside one allocated direct block -/

/-- The scan over `s, s + 1, ..` inside the bitmap stops at the first free
entry, and ends without a `break` only when no entry of the range is free. -/
theorem scan_range'_spec (bm : List Bool) :
    ∀ c s, s + c ≤ bm.length →
      (forLoop (fun i (_ : Unit) => match bm[i]? with
          | none => Step.ret (none : Option Nat)
          | some true => Step.ret (some i)
          | some false => Step.next ()) (List.range' s c) () = Step.next () ∧
        ∀ j, s ≤ j → j < s + c → bm[j]? = some false) ∨
      ∃ i, forLoop (fun i (_ : Unit) => match bm[i]? with
          | none => Step.ret (none : Option Nat)
          | some true => Step.ret (some i)
          | some false => Step.next ()) (List.range' s c) () = Step.ret (some i) ∧
        s ≤ i ∧ i < s + c ∧ bm[i]? = some true ∧
        ∀ j, s ≤ j → j < i → bm[j]? = some false := by
  intro c
  induction c with
  | zero =>
    intro s _
    exact Or.inl ⟨rfl, fun j h1 h2 => by omega⟩
  | succ c ih =>
    intro s hs
    rw [List.range'_succ]
    have hlt : s < bm.length := by omega
    have hsome : bm[s]? = some bm[s] := List.getElem?_eq_getElem hlt
    cases hb : bm[s] with
    | true =>
      rw [hb] at hsome
      refine Or.inr ⟨s, ?_, Nat.le_refl s, by omega, hsome, fun j h1 h2 => by omega⟩
      apply forLoop_cons_ret
      simp only [hsome]
    | false =>
      rw [hb] at hsome
      have hstep : (fun i (_ : Unit) => match bm[i]? with
          | none => Step.ret (none : Option Nat)
          | some true => Step.ret (some i)
          | some false => Step.next ()) s () = Step.next () := by
        simp only [hsome]
      rw [forLoop_cons_next _ hstep]
      rcases ih (s + 1) (by omega) with ⟨hn, hall⟩ | ⟨i, hr, h1, h2, h3, h4⟩
      · refine Or.inl ⟨hn, fun j hj1 hj2 => ?_⟩
        by_cases hjs : j = s
        · rw [hjs]
          exact hsome
        · exact hall j (by omega) (by omega)
      · refine Or.inr ⟨i, hr, by omega, by omega, h3, fun j hj1 hj2 => ?_⟩
        by_cases hjs : j = s
        · rw [hjs]
          exact hsome
        · exact h4 j (by omega) hj2

/-- On a mounted filesystem (a bitmap of `blocks` entries, `inode_blocks <
blocks`, 32-bit `blocks`) the allocation scan either finds no free block in
`[inode_blocks + 1, blocks)` or stops at the smallest free index of it. -/
theorem alloc_scan_spec (fs : FileSystem) (bm : List Bool)
    (hlen : bm.length = fs.meta_data.blocks)
    (hib : fs.meta_data.inode_blocks < fs.meta_data.blocks)
    (h32 : fs.meta_data.blocks < U32_MOD) :
    (alloc_scan fs bm = some none ∧
      ∀ j, fs.meta_data.inode_blocks < j → j < fs.meta_data.blocks → bm[j]? = some false) ∨
    ∃ i, alloc_scan fs bm = some (some i) ∧
      fs.meta_data.inode_blocks < i ∧ i < fs.meta_data.blocks ∧ bm[i]? = some true ∧
      ∀ j, fs.meta_data.inode_blocks < j → j < i → bm[j]? = some false := by
  have hstart : (fs.meta_data.inode_blocks + 1) % U32_MOD = fs.meta_data.inode_blocks + 1 :=
    Nat.mod_eq_of_lt (by omega)
  unfold alloc_scan
  dsimp only
  rw [hstart]
  rcases scan_range'_spec bm (fs.meta_data.blocks - (fs.meta_data.inode_blocks + 1))
      (fs.meta_data.inode_blocks + 1) (by omega) with ⟨hn, hall⟩ | ⟨i, hr, h1, h2, h3, h4⟩
  · left
    rw [hn]
    exact ⟨rfl, fun j hj1 hj2 => hall j (by omega) (by omega)⟩
  · right
    rw [hr]
    exact ⟨i, rfl, by omega, by omega, h3, fun j hj1 hj2 => h4 j (by omega) hj2⟩

/-- C21: on a mounted filesystem (a bitmap of `blocks` entries,
`inode_blocks < blocks`, `blocks` a 32-bit value), whenever the block
`if (inode->direct[block_index] == 0) { ... }` of `fs_write` allocates for an
unallocated direct pointer and the loop goes on, the block recorded in the
pointer is the smallest index `i` of `[inode_blocks + 1, blocks)` with
`free_blocks[i]` true before the allocation; afterwards `free_blocks[i]` is
false and every other bitmap entry is unchanged; no block of
`[0 .. inode_blocks]` is chosen. -/
theorem C21_alloc_first_fit (fs : FileSystem) (idx bi : Nat) (s s' : WriteState)
    (hlen : s.free_blocks.length = fs.meta_data.blocks)
    (hib : fs.meta_data.inode_blocks < fs.meta_data.blocks)
    (h32 : fs.meta_data.blocks < U32_MOD)
    (hzero : inode_direct s.inode_block idx bi = 0)
    (h : write_direct_alloc fs idx bi s = Step.next s') :
    ∃ i, fs.meta_data.inode_blocks < i ∧ i < fs.meta_data.blocks ∧
      s.free_blocks[i]? = some true ∧
      (∀ j, fs.meta_data.inode_blocks < j → j < i → s.free_blocks[j]? = some false) ∧
      inode_direct s'.inode_block idx bi = i ∧
      s'.free_blocks.length = s.free_blocks.length ∧
      s'.free_blocks[i]? = some false ∧
      ∀ j, j ≠ i → s'.free_blocks[j]? = s.free_blocks[j]? := by
  unfold write_direct_alloc at h
  rw [if_pos hzero] at h
  rcases alloc_scan_spec fs s.free_blocks hlen hib h32 with ⟨hn, _⟩ | ⟨i, hr, h1, h2, h3, h4⟩
  · rw [hn] at h
    simp at h
  · rw [hr] at h
    dsimp only at h
    rw [setFree_of_lt s.free_blocks false (by omega)] at h
    dsimp only at h
    rw [if_neg (by omega)] at h
    simp only [Step.next.injEq] at h
    subst h
    refine ⟨i, h1, h2, h3, h4, ?_, ?_, ?_, ?_⟩
    · show inode_direct (set32 s.inode_block (directAt idx bi) i) idx bi = i
      unfold inode_direct
      rw [get32_set32_same]
      exact Nat.mod_eq_of_lt (by omega)
    · exact List.length_set _ _ _
    · show (s.free_blocks.set i false)[i]? = some false
      rw [List.getElem?_set]
      simp
      omega
    · intro j hj
      show (s.free_blocks.set i false)[j]? = s.free_blocks[j]?
      rw [List.getElem?_set]
      rw [if_neg (fun h => hj h.symm)]

/-- Witness of C21: the first write to the new file of the fresh 10-block
image allocates block 2, the first data block. -/
theorem C21_alloc_first_fit_witness :
    write_direct_alloc freshFs 0 0 freshWriteState = Step.next allocatedWriteState ∧
    inode_direct allocatedWriteState.inode_block 0 0 = 2 ∧
    writtenFs.free_blocks =
      some [false, false, false, true, true, true, true, true, true, true] ∧
    ∃ i, freshFs.meta_data.inode_blocks < i ∧ i < freshFs.meta_data.blocks ∧
      freshWriteState.free_blocks[i]? = some true ∧
      (∀ j, freshFs.meta_data.inode_blocks < j → j < i →
        freshWriteState.free_blocks[j]? = some false) ∧
      inode_direct allocatedWriteState.inode_block 0 0 = i ∧
      allocatedWriteState.free_blocks.length = freshWriteState.free_blocks.length ∧
      allocatedWriteState.free_blocks[i]? = some false ∧
      ∀ j, j ≠ i → allocatedWriteState.free_blocks[j]? = freshWriteState.free_blocks[j]? :=
  ⟨rfl, by decide, by decide,
    C21_alloc_first_fit freshFs 0 0 freshWriteState allocatedWriteState
      (by decide) (by decide) (by decide) (by decide) rfl⟩

/-! ## The second loop of `fs_read` does not advance over a zero entry -/

/-- With the loop condition true and a zero entry of the indirect block at
the current offset, an iteration of the second loop of `fs_read` changes
nothing: no amount of fuel ends the loop. -/
theorem read_indirect_loop_stuck (fs : FileSystem) (d : Disk) (blk iblk : Block)
    (idx length : Nat) (s : ReadState)
    (h1 : s.current_offset < inode_size blk idx) (h2 : s.bytes_read < length)
    (hidx : (s.current_offset / BLOCK_SIZE + SIZE_MOD - POINTERS_PER_INODE) % SIZE_MOD
      < POINTERS_PER_BLOCK)
    (hp : get32 iblk
      ((s.current_offset / BLOCK_SIZE + SIZE_MOD - POINTERS_PER_INODE) % SIZE_MOD) = 0) :
    ∀ fuel, read_indirect_loop fs d blk iblk idx length fuel s = none := by
  intro fuel
  induction fuel with
  | zero => rfl
  | succ fuel ih =>
    unfold read_indirect_loop
    rw [if_pos ⟨h1, h2⟩]
    dsimp only
    rw [if_neg (Nat.not_le.2 hidx), if_neg (fun h => h hp)]
    exact ih

/-- For a valid inode with a readable indirect block, a read of at least one
byte that starts below the file size in a file block `6 .. 1028` whose entry of
the indirect block is 0 never returns: every amount of fuel is used up. -/
theorem fs_read_diverges (fs : FileSystem) (d : Disk) (n : Nat) (out : Buffer)
    (length offset : Nat)
    (hd : fs.disk ≠ none) (hfb : fs.free_blocks ≠ none)
    (hn : n < fs.meta_data.inodes) (hdev : 1 + n / INODES_PER_BLOCK < d.blocks)
    (hv : slotValid d n)
    (hi : inode_indirect (d.data (1 + n / INODES_PER_BLOCK)) (n % INODES_PER_BLOCK) ≠ 0)
    (hidev : inode_indirect (d.data (1 + n / INODES_PER_BLOCK)) (n % INODES_PER_BLOCK)
      < d.blocks)
    (hoff : offset < inode_size (d.data (1 + n / INODES_PER_BLOCK)) (n % INODES_PER_BLOCK))
    (hlen : 0 < length)
    (h6 : POINTERS_PER_INODE < offset / BLOCK_SIZE)
    (h1029 : offset / BLOCK_SIZE < POINTERS_PER_INODE + POINTERS_PER_BLOCK)
    (hzero : get32 (d.data (inode_indirect (d.data (1 + n / INODES_PER_BLOCK))
      (n % INODES_PER_BLOCK))) (offset / BLOCK_SIZE - POINTERS_PER_INODE) = 0) :
    ∀ fuel, fs_read fuel fs d n out length offset = Outcome.nofuel := by
  have hv0 : ¬ inode_valid (d.data (1 + n / INODES_PER_BLOCK)) (n % INODES_PER_BLOCK) = 0 := by
    unfold slotValid at hv
    rw [hv]
    decide
  have hidx : (offset / BLOCK_SIZE + SIZE_MOD - POINTERS_PER_INODE) % SIZE_MOD =
      offset / BLOCK_SIZE - POINTERS_PER_INODE := by
    unfold POINTERS_PER_INODE POINTERS_PER_BLOCK at *
    unfold SIZE_MOD
    omega
  intro fuel
  unfold fs_read
  rw [if_neg (by simp [hd, hfb]), if_neg (by omega)]
  dsimp only
  rw [disk_read_of_lt hd hdev]
  dsimp only
  rw [if_neg hv0]
  cases fuel with
  | zero => rfl
  | succ fuel =>
    have hfirst : read_direct_loop fs d (d.data (1 + n / INODES_PER_BLOCK))
        (n % INODES_PER_BLOCK) length (fuel + 1)
        { bytes_read := 0, current_offset := offset, data := out } =
        some (LoopEnd.exit { bytes_read := 0, current_offset := offset, data := out }) := by
      unfold read_direct_loop
      rw [if_pos ⟨hoff, hlen⟩]
      dsimp only
      rw [if_pos h6]
    rw [hfirst]
    dsimp only
    rw [if_pos hi, disk_read_of_lt hd hidev]
    dsimp only
    rw [read_indirect_loop_stuck fs d _ _ _ length
      { bytes_read := 0, current_offset := offset, data := out } hoff hlen
      (by
        show (offset / BLOCK_SIZE + SIZE_MOD - POINTERS_PER_INODE) % SIZE_MOD < _
        rw [hidx]
        unfold POINTERS_PER_INODE POINTERS_PER_BLOCK at *
        omega)
      (by
        show get32 _ ((offset / BLOCK_SIZE + SIZE_MOD - POINTERS_PER_INODE) % SIZE_MOD) = 0
        rw [hidx]
        exact hzero)]

/-- C22, at the failing input: inode 0 of `sparseDisk` is valid with size
32768 and `indirect = 3`, and entry 1 of the indirect block (file block 6) is
0; a read of one byte at offset 24576 uses up every amount of fuel: the second
loop of `fs_read` repeats the same iteration with unchanged offset and byte
count, where the claim requires the read to return. -/
theorem C22_read_never_returns :
    slotValid sparseDisk 0 ∧ inode_size (sparseDisk.data 1) 0 = 32768 ∧
    inode_indirect (sparseDisk.data 1) 0 = 3 ∧ get32 (sparseDisk.data 3) 1 = 0 ∧
    ∀ fuel out, fs_read fuel sparseFs sparseDisk 0 out 1 24576 = Outcome.nofuel :=
  ⟨by decide, by decide, by decide, by decide, fun fuel out =>
    fs_read_diverges sparseFs sparseDisk 0 out 1 24576 (by decide!) (by decide!) (by decide!)
      (by decide) (by decide) (by decide) (by decide) (by decide) (by decide) (by decide)
      (by decide) (by decide) fuel⟩

/-! ## The bitmap accesses of `fs_mount` -/

/-- C23: on an image whose superblock has `inode_blocks < blocks` and in which
every pointer of every valid inode (direct, indirect, indirect-block entry) is
below `blocks`, every index at which `fs_mount` writes `free_blocks` is inside
the vector of `meta_data.blocks` entries: the call never takes the
out-of-bounds outcome `none` of an assignment `free_blocks[i] = false`, it
returns with a flag and a filesystem record, and on success the bitmap has
`blocks` entries. -/
theorem C23_mount_accesses_in_bounds (fs : FileSystem) (disk : Option Nat) (d : Disk)
    (hib : (Block_super (d.data 0)).inode_blocks < (Block_super (d.data 0)).blocks)
    (hptr : PointersBelow (Block_super (d.data 0)) d (Block_super (d.data 0)).blocks) :
    ∃ ok fs', fs_mount fs disk d = some (ok, fs') ∧
      (ok = true → ∃ bm, fs'.free_blocks = some bm ∧
        bm.length = (Block_super (d.data 0)).blocks) := by
  cases h : fs_mount fs disk d with
  | none => exact absurd h (fs_mount_defined fs disk d hib hptr)
  | some r =>
    obtain ⟨ok, fs'⟩ := r
    refine ⟨ok, fs', rfl, fun hok => ?_⟩
    subst hok
    obtain ⟨_, _, bm, hbm, hlen, _⟩ := fs_mount_true h
    exact ⟨bm, hbm, hlen⟩

/-- Witness of C23: the image `fileDisk`, whose inode 0 has a direct block, an
indirect block and one entry in it. -/
theorem C23_mount_accesses_in_bounds_witness :
    (Block_super (fileDisk.data 0)).inode_blocks < (Block_super (fileDisk.data 0)).blocks ∧
    ∃ ok fs', fs_mount fs0 (some 0) fileDisk = some (ok, fs') ∧
      (ok = true → ∃ bm, fs'.free_blocks = some bm ∧
        bm.length = (Block_super (fileDisk.data 0)).blocks) :=
  ⟨by decide, C23_mount_accesses_in_bounds fs0 (some 0) fileDisk (by decide!) (by decide!)⟩

end SimpleFS
